import Mathlib

/-!
Shallow embedding of the suspicious-trade-tracker pipeline
(src/ingest/quiver.py, src/enrich/news.py, src/scoring/model.py).

Modelling conventions:
* Python floats are modelled as rationals; a float `NaN` (and `None` in a
  numeric pandas column) is modelled as `none : Option ℚ`.
* A Python function that can raise is modelled as `Except String _`.
* Strings are processed as `List Char`; `String` wrappers are provided where
  the source function signature takes `str`.
-/

attribute [local semireducible] Rat.add Rat.mul Rat.sub Rat.inv

/-- Python whitespace as used by `str.strip()` and the regex class `\s`
(ASCII range; the pipeline data is ASCII apart from the mis-decoded en-dash). -/
def pyWs (c : Char) : Bool :=
  c = ' ' || c = '\t' || c = '\n' || c = '\r' || c = '\x0b' || c = '\x0c'

/-- `s.strip()`. -/
def stripL (l : List Char) : List Char := (l.dropWhile pyWs).rdropWhile pyWs

/-- Worker for `re.sub(r"\s+", " ", s)`: the flag records whether the previous
character was part of a whitespace run that has already emitted its space. -/
def collapseGo : Bool → List Char → List Char
  | _, [] => []
  | inWs, c :: t =>
    if pyWs c then
      if inWs then collapseGo true t else ' ' :: collapseGo true t
    else c :: collapseGo false t

/-- `re.sub(r"\s+", " ", s)`: every maximal whitespace run becomes one space. -/
def collapseL (l : List Char) : List Char := collapseGo false l

/-- Character class `[\d,.]` of `AMOUNT_PATTERN`. -/
def isDigitCommaDot (c : Char) : Bool := c.isDigit || c = ',' || c = '.'

/-- Numeric value of a digit string. -/
def natOfDigits (l : List Char) : ℕ := l.foldl (fun n c => 10 * n + (c.toNat - 48)) 0

/-- Python `float(s)` for the strings reachable here (digits and dots only,
commas already removed): `"15000"`, `"1."`, `".5"` parse; `"."`, `""`,
`"1.2.3"` raise `ValueError`, modelled as `none`. -/
def pyFloatDigits (l : List Char) : Option ℚ :=
  match l.splitOn '.' with
  | [a] => if !a.isEmpty && a.all Char.isDigit then some (natOfDigits a) else none
  | [a, b] =>
    if !(a ++ b).isEmpty && (a ++ b).all Char.isDigit then
      some ((natOfDigits a : ℚ) + (natOfDigits b : ℚ) / ((10 : ℚ) ^ b.length))
    else none
  | _ => none

/-- The groups of one `AMOUNT_PATTERN` match.  Group 2 and group 4
(`[KkMm]?`) capture at most one character; the empty capture and the absent
group are both modelled as `none` (the source applies `or ""` to them). -/
structure AmtMatch where
  g1 : List Char
  g2 : Option Char
  g3 : Option (List Char)
  g4 : Option Char
deriving Repr, DecidableEq

/-- `[KkMm]`. -/
def isKM (c : Char) : Bool := c = 'K' || c = 'k' || c = 'M' || c = 'm'

/-- Attempt `AMOUNT_PATTERN = \$?([\d,.]+)\s*([KkMm]?)(?:\s*-\s*\$?([\d,.]+)\s*([KkMm]?))?`
anchored at the head of `l`.  The pattern needs no backtracking into groups 1/2:
the optional dash group either matches or is skipped. -/
def matchAmountAt (l : List Char) : Option AmtMatch :=
  let l1 := if l.head? = some '$' then l.tail else l
  let g1 := l1.takeWhile isDigitCommaDot
  if g1.isEmpty then none else
  let r1 := (l1.drop g1.length).dropWhile pyWs
  let p2 : Option Char × List Char :=
    match r1 with
    | c :: t => if isKM c then (some c, t) else (none, r1)
    | [] => (none, [])
  let dash : Option (List Char × Option Char) :=
    match p2.2.dropWhile pyWs with
    | '-' :: t =>
      let t1 := t.dropWhile pyWs
      let t2 := if t1.head? = some '$' then t1.tail else t1
      let g3 := t2.takeWhile isDigitCommaDot
      if g3.isEmpty then none else
      match (t2.drop g3.length).dropWhile pyWs with
      | c :: _ => if isKM c then some (g3, some c) else some (g3, none)
      | [] => some (g3, none)
    | _ => none
  match dash with
  | some (g3, g4) => some ⟨g1, p2.1, some g3, g4⟩
  | none => some ⟨g1, p2.1, none, none⟩

/-- `AMOUNT_PATTERN.search`: leftmost match. -/
def searchAmount : List Char → Option AmtMatch
  | [] => none
  | c :: t =>
    match matchAmountAt (c :: t) with
    | some m => some m
    | none => searchAmount t

/-- The three derived amount columns. -/
structure AmountFields where
  amount_low : Option ℚ
  amount_high : Option ℚ
  amount_mid : Option ℚ
deriving Repr, DecidableEq

def allNullAmount : AmountFields := ⟨none, none, none⟩

/-- Inner `to_number` of `_parse_amount_bracket`: strip commas, `float(...)`,
apply the K/M multiplier (`suffix.lower()`).  A failing `float` conversion is
the `ValueError` the source lets escape. -/
def to_number (numStr : List Char) (suffix : Option Char) : Except String ℚ :=
  match pyFloatDigits (numStr.filter (fun c => c ≠ ',')) with
  | none => .error "ValueError: could not convert string to float"
  | some base =>
    .ok (if suffix = some 'k' || suffix = some 'K' then base * 1000
         else if suffix = some 'm' || suffix = some 'M' then base * 1000000
         else base)

/-- `_parse_amount_bracket` (src/ingest/quiver.py:98-122).  The source's
`if low is None` branch is unreachable (group 1 is present in every match),
so it has no counterpart here; `mid = (low + high) / 2` since both bounds are
non-null at that point. -/
def _parse_amount_bracket (bracket : String) : Except String AmountFields :=
  if bracket = "" then .ok allNullAmount
  else
    match searchAmount bracket.data with
    | none => .ok allNullAmount
    | some m => do
      let low ← to_number m.g1 m.g2
      let high ← match m.g3 with
        | some g3 => to_number g3 m.g4
        | none => .ok low
      .ok ⟨some low, some high, some ((low + high) / 2)⟩

instance {α β : Type} [DecidableEq α] [DecidableEq β] : DecidableEq (Except α β) := fun x y =>
  match x, y with
  | .error a, .error b => decidable_of_iff (a = b) (by simp)
  | .ok a, .ok b => decidable_of_iff (a = b) (by simp)
  | .error _, .ok _ => isFalse (by simp)
  | .ok _, .error _ => isFalse (by simp)


/-- The regex word class `\w` backing the word boundary `\b` (ASCII range). -/
def isWordChar (c : Char) : Bool := c.isAlpha || c.isDigit || c = '_'

/-- Case-insensitive literal match (`re.IGNORECASE`); returns the remainder
of the text after the literal. -/
def litMatch : List Char → List Char → Option (List Char)
  | [], rest => some rest
  | _ :: _, [] => none
  | a :: as, c :: cs => if a.toLower = c.toLower then litMatch as cs else none

/-- The continuation `\.?$` of `CORP_SUFFIXES`.  Inside `clean_stock_name` the
subject string is always `strip()`ped first, so `$` is simply end-of-input. -/
def dotEnd (rest : List Char) : Bool := rest = [] || rest = ['.']

/-- One literal alternative of `CORP_SUFFIXES` followed by `\.?$`. -/
def litAlt (lit : String) (rest : List Char) : Bool :=
  match litMatch lit.data rest with
  | some r => dotEnd r
  | none => false

/-- The alternative `Class [A-Z]` (IGNORECASE makes `[A-Z]` match both cases). -/
def classAlt (rest : List Char) : Bool :=
  match litMatch "Class ".data rest with
  | some (c :: r) => c.isAlpha && dotEnd r
  | _ => false

/-- Does one of the `CORP_SUFFIXES` alternatives, followed by `\.?$`, match at
this position?  (Ordered alternation collapses to disjunction because every
branch is checked together with the continuation.) -/
def altComplete (rest : List Char) : Bool :=
  litAlt "Inc" rest || litAlt "Incorporated" rest || litAlt "Corp" rest ||
  litAlt "Corporation" rest || litAlt "Co" rest || litAlt "Company" rest ||
  classAlt rest || litAlt "Common Stock" rest || litAlt "Ord Shs" rest ||
  litAlt "PLC" rest || litAlt "Ltd" rest

/-- Leftmost start position of a `CORP_SUFFIXES` match.  Every alternative
begins with a letter, so the `\b` before the group holds exactly when the
previous character is not a word character (`prevW`). -/
def corpFindAux : Bool → List Char → Option Nat
  | _, [] => none
  | prevW, c :: t =>
    if !prevW && altComplete (c :: t) then some 0
    else (corpFindAux (isWordChar c) t).map (fun i => i + 1)

/-- `CORP_SUFFIXES.sub("", s)`: the match (if any) extends to the end of the
string, so substitution keeps the prefix before the leftmost match. -/
def corpSubL (l : List Char) : List Char :=
  match corpFindAux false l with
  | some i => l.take i
  | none => l

/-- The `while prev != primary` loop of `clean_stock_name`, fuel-indexed
(each non-trivial iteration strictly shortens the string, so `length + 1`
fuel always reaches the fixed point). -/
def corpFixFuel : Nat → List Char → List Char
  | 0, l => l
  | n + 1, l =>
    let t := stripL (corpSubL l)
    if t = l then l else corpFixFuel n t

def corpFix (l : List Char) : List Char := corpFixFuel (l.length + 1) l

/-- `raw.replace("â€“", "-")`: the mis-decoded en-dash byte triple becomes a
plain hyphen (left-to-right, non-overlapping, like `str.replace`). -/
def replaceEnDash : List Char → List Char
  | [] => []
  | [c] => [c]
  | [c, d] => [c, d]
  | c :: d :: e :: t =>
    if c = 'â' ∧ d = '€' ∧ e = '“' then '-' :: replaceEnDash t
    else c :: replaceEnDash (d :: e :: t)

/-- `clean_stock_name` (src/ingest/quiver.py:127-137): normalize the bad
en-dash, keep the segment before the first hyphen (stripped, as
`parts[0]` of the stripped split), strip corporate suffixes to a fixed
point, collapse whitespace runs. -/
def clean_stock_name (raw : String) : String :=
  if raw = "" then raw
  else
    let cleaned := replaceEnDash raw.data
    let primary := stripL (cleaned.takeWhile (fun c => c ≠ '-'))
    String.mk (collapseL (corpFix primary))


/-- One HTML table cell: its tag kind (`td` or `th`) and its `get_text()`
content. -/
structure HtmlCell where
  isTd : Bool
  text : String
deriving Repr, DecidableEq

/-- A `tr` element as its cells in document order. -/
abbrev HtmlRow := List HtmlCell

/-- A `table` element as its rows in document order. -/
abbrev HtmlTable := List HtmlRow

/-- An HTML document restricted to what `parse_table` consumes: its `table`
elements in document order. -/
abbrev HtmlDoc := List HtmlTable

/-- `str.strip()` on a `String`. -/
def stripS (s : String) : String := String.mk (stripL s.data)

/-- `_standardize_header` (src/ingest/quiver.py:45-46):
`re.sub(r"\s+", " ", text.strip())`. -/
def _standardize_header (text : String) : String :=
  String.mk (collapseL (stripL text.data))

def EXPECTED_HEADERS : List String :=
  ["Politician", "Stock", "Trade Type", "Trade Date", "Amount", "Sector"]

/-- `hashlib.md5(s.encode()).hexdigest()` is modelled by the string itself:
an injective fingerprint.  No claim depends on the hash value, only on its
propagation into the dataset. -/
def md5_hex (s : String) : String := s

def header_fingerprint (headers : List String) : String :=
  md5_hex (String.intercalate "||" headers)

/-- One raw record of `parse_table`: the `mapping.get(...)` results for the
six required keys. -/
structure TradeRecordRaw where
  politician : Option String
  stock : Option String
  trade_type : Option String
  trade_date : Option String
  amount : Option String
  sector : Option String
deriving Repr, DecidableEq

/-- `ParseResult` (src/ingest/quiver.py:23-27). -/
structure ParseResult where
  records : List TradeRecordRaw
  header_hash : String
  warnings : List String
deriving Repr, DecidableEq

/-- Python `dict(zip(ks, vs)).get(k)`: with duplicate keys the LAST binding
wins. -/
def dictGet (pairs : List (String × String)) (k : String) : Option String :=
  ((pairs.filter (fun p => p.1 = k)).getLast?).map (fun p => p.2)

/-- `[c.get_text(strip=True) for c in r.find_all("td")]`: only `td` cells. -/
def tdTexts (r : HtmlRow) : List String :=
  (r.filter (fun c => c.isTd)).map (fun c => stripS c.text)

/-- The header texts of a row: `find_all(["th", "td"])` takes every cell. -/
def headerTexts (r : HtmlRow) : List String :=
  r.map (fun c => _standardize_header c.text)

/-- `EXPECTED_HEADERS.issubset(set(h for h in headers if h))`. -/
def headersMatch (headers : List String) : Bool :=
  EXPECTED_HEADERS.all (fun k => headers.any (fun h2 => h2 ≠ "" && h2 = k))

/-- What one data row contributes to the result. -/
inductive RowOutcome
  | short
  | missing (warning : String)
  | record (rec : TradeRecordRaw)
deriving Repr, DecidableEq

/-- The interpolated `mapping` of the warning f-string, rendered as joined
pairs (no claim depends on the exact warning text). -/
def renderMapping (pairs : List (String × String)) : String :=
  String.intercalate ", " (pairs.map (fun p => p.1 ++ "=" ++ p.2))

/-- The body of the row loop of `parse_table` (src/ingest/quiver.py:77-93):
fewer than six `td` cells → silently skipped; six cells whose mapping misses
a required key → warning; otherwise a record. -/
def processRow (headers : List String) (r : HtmlRow) : RowOutcome :=
  let cols := tdTexts r
  if cols.length < 6 then .short
  else
    let values := cols.take 6
    let pairs := (headers.take 6).zip values
    if EXPECTED_HEADERS.all (fun k => pairs.any (fun p => p.1 = k)) then
      .record ⟨dictGet pairs "Politician", dictGet pairs "Stock",
               dictGet pairs "Trade Type", dictGet pairs "Trade Date",
               dictGet pairs "Amount", dictGet pairs "Sector"⟩
    else .missing ("Row missing expected columns: " ++ renderMapping pairs)

/-- The candidate loop of `parse_table`: first table having a first row
(`tbl.find("tr")`) whose standardized header set contains the expected
columns. -/
def findCandidate : List HtmlTable → Option (HtmlTable × List String)
  | [] => none
  | tbl :: rest =>
    match tbl with
    | [] => findCandidate rest
    | headerRow :: _ =>
      let headers := headerTexts headerRow
      if headersMatch headers then some (tbl, headers) else findCandidate rest

/-- `parse_table` (src/ingest/quiver.py:49-95). -/
def parse_table (doc : HtmlDoc) : Except String ParseResult :=
  if doc.isEmpty then .error "No tables found in HTML."
  else
    match findCandidate doc with
    | none => .error "No table contained expected headers."
    | some (tbl, headers) =>
      let outcomes := (tbl.drop 1).map (processRow headers)
      .ok { records := outcomes.filterMap
              (fun o => match o with | .record rec => some rec | _ => none)
          , header_hash := header_fingerprint headers
          , warnings := outcomes.filterMap
              (fun o => match o with | .missing w => some w | _ => none) }

/-- A pandas cell as `normalize_records` produces them: a string, a float,
a datetime (integer timestamp), or NaN/None/NaT. -/
inductive PCell
  | s (v : String)
  | q (v : ℚ)
  | t (v : Int)
  | nan
deriving Repr, DecidableEq

/-- A pandas DataFrame: a row count and named columns (each of length
`nrows`) in column order. -/
structure PFrame where
  nrows : Nat
  cols : List (String × List PCell)
deriving Repr, DecidableEq

def getCol (fr : PFrame) (name : String) : Option (List PCell) :=
  ((fr.cols.filter (fun p => p.1 = name)).head?).map (fun p => p.2)

/-- `df[name] = vals` when the length already agrees: replace in place or
append a new column. -/
def setCol (fr : PFrame) (name : String) (vals : List PCell) : PFrame :=
  if (fr.cols.map (fun p => p.1)).contains name then
    { fr with cols := fr.cols.map (fun p => if p.1 = name then (name, vals) else p) }
  else { fr with cols := fr.cols ++ [(name, vals)] }

inductive AssignVal
  | scalar (c : PCell)
  | listV (vs : List PCell)

/-- `df[name] = value` for the cases `normalize_records` exercises.
A scalar broadcasts over the current index.  A non-empty list assigned while
the index is EMPTY re-indexes the frame to the list's length and fills the
existing columns with NaN (pandas `DataFrame._ensure_valid_index`); a list
whose length mismatches a non-empty index raises `ValueError`. -/
def pdSetItem (fr : PFrame) (name : String) (v : AssignVal) : Except String PFrame :=
  match v with
  | .scalar c => .ok (setCol fr name (List.replicate fr.nrows c))
  | .listV vs =>
    if fr.nrows = 0 && !vs.isEmpty then
      .ok (setCol { nrows := vs.length
                  , cols := fr.cols.map (fun p => (p.1, List.replicate vs.length PCell.nan)) }
            name vs)
    else if vs.length = fr.nrows then .ok (setCol fr name vs)
    else .error "ValueError: Length of values does not match length of index"

/-- `df.assign(...)` / successive column assignments, in keyword order. -/
def dfAssign (fr : PFrame) (assigns : List (String × AssignVal)) : Except String PFrame :=
  assigns.foldlM (fun acc p => pdSetItem acc p.1 p.2) fr

def cellOfOpt (v : Option String) : PCell :=
  match v with
  | some s => .s s
  | none => .nan

/-- `pd.DataFrame(pr.records)`: six columns in dict-key order, or a frame
with no rows and no columns for an empty record list. -/
def dfOfRecords (records : List TradeRecordRaw) : PFrame :=
  if records.isEmpty then ⟨0, []⟩
  else
    ⟨records.length,
      [("Politician", records.map (fun r => cellOfOpt r.politician)),
       ("Stock", records.map (fun r => cellOfOpt r.stock)),
       ("Trade Type", records.map (fun r => cellOfOpt r.trade_type)),
       ("Trade Date", records.map (fun r => cellOfOpt r.trade_date)),
       ("Amount", records.map (fun r => cellOfOpt r.amount)),
       ("Sector", records.map (fun r => cellOfOpt r.sector))]⟩

def SOURCE_URL : String := "https://www.quiverquant.com/congresstrading"

def preferredCols : List String :=
  ["Politician", "ticker", "stock_clean", "raw_stock", "Sector", "Trade Type",
   "Trade Date", "trade_date", "Amount", "amount_low", "amount_high", "amount_mid",
   "scrape_ts", "source_url", "header_hash", "parse_warnings"]

/-- `df[[c for c in preferred if c in df.columns]]`. -/
def selectCols (fr : PFrame) (names : List String) : PFrame :=
  { nrows := fr.nrows
  , cols := (names.filter (fun n => (fr.cols.map (fun p => p.1)).contains n)).map
      (fun n => (n, (getCol fr n).getD [])) }

def cellOfQ (v : Option ℚ) : PCell :=
  match v with
  | some x => .q x
  | none => .nan

/-- `normalize_records` (src/ingest/quiver.py:140-161), parameterized by the
date parser standing for `pd.to_datetime(..., errors="coerce")` (no claim
depends on how date strings are interpreted).  The `.nan` fallthroughs for
the Amount/Stock cells model the `TypeError`/`AttributeError` Python would
raise there; both are unreachable for frames built from `parse_table`
records, whose six fields are always strings. -/
def normalize_records (dateParse : String → Option Int) (pr : ParseResult)
    (fetched_at : Int) : Except String PFrame :=
  let df := dfOfRecords pr.records
  if df.nrows = 0 then
    dfAssign df
      [("scrape_ts", .scalar (.t fetched_at)),
       ("source_url", .scalar (.s SOURCE_URL)),
       ("header_hash", .scalar (.s pr.header_hash)),
       ("parse_warnings", .listV [.s "No rows parsed"])]
  else do
    let dateCells := ((getCol df "Trade Date").getD []).map (fun c =>
      match c with
      | .s v => match dateParse v with
        | some d => PCell.t d
        | none => PCell.nan
      | _ => PCell.nan)
    let amtFields ← ((getCol df "Amount").getD []).mapM (fun c =>
      match c with
      | .s v => _parse_amount_bracket v
      | _ => Except.error "TypeError: expected string or bytes-like object")
    let stockCells := (getCol df "Stock").getD []
    let cleanCells ← stockCells.mapM (fun c =>
      match c with
      | .s v => Except.ok (PCell.s (clean_stock_name v))
      | _ => Except.error "AttributeError: float object has no attribute replace")
    let df2 ← dfAssign df
      [("trade_date", .listV dateCells),
       ("amount_low", .listV (amtFields.map (fun a => cellOfQ a.amount_low))),
       ("amount_high", .listV (amtFields.map (fun a => cellOfQ a.amount_high))),
       ("amount_mid", .listV (amtFields.map (fun a => cellOfQ a.amount_mid))),
       ("raw_stock", .listV stockCells),
       ("stock_clean", .listV cleanCells),
       ("ticker", .scalar .nan),
       ("scrape_ts", .scalar (.t fetched_at)),
       ("source_url", .scalar (.s SOURCE_URL)),
       ("header_hash", .scalar (.s pr.header_hash)),
       ("parse_warnings", .scalar (.s (if pr.warnings.isEmpty then ""
          else String.intercalate "|" pr.warnings)))]
    .ok (selectCols df2 preferredCols)

/-- `fetch_quiver_trades` (src/ingest/quiver.py:164-169) with the HTTP fetch
abstracted to the fetched document: a network / non-200 / empty-body failure
raises `QuiverIngestionError` before any of this code runs. -/
def fetch_quiver_trades (dateParse : String → Option Int) (doc : HtmlDoc)
    (now : Int) : Except String PFrame := do
  let pr ← parse_table doc
  normalize_records dateParse pr now


def exHeaderRow : HtmlRow :=
  [⟨false, "Politician"⟩, ⟨false, "Stock"⟩, ⟨false, "Trade Type"⟩,
   ⟨false, "Trade Date"⟩, ⟨false, "Amount"⟩, ⟨false, "Sector"⟩]

def exGoodRow : HtmlRow :=
  [⟨true, "Jane Doe"⟩, ⟨true, "Apple Inc"⟩, ⟨true, "Purchase"⟩,
   ⟨true, "2024-01-02"⟩, ⟨true, "$15,000"⟩, ⟨true, "Technology"⟩]

def exShortRow : HtmlRow :=
  [⟨true, "John Roe"⟩, ⟨true, "Foo Corp"⟩, ⟨true, "Sale"⟩,
   ⟨true, "2024-01-03"⟩, ⟨true, "$1,000"⟩]


/-- A news article as the enricher consumes it (`a.get(...)` fields; `source`
is already projected to its `name`). -/
structure Article where
  title : Option String
  source_name : Option String
  url : Option String
  publishedAt : Option String
deriving Repr, DecidableEq

/-- The JSON body of one news-API response as `_news_request` consumes it:
an optional `status` field and an `articles` list (`.get("articles", [])`).
The `except` branch of the source builds exactly such a dict with status
`"error"` and no articles, so a transport failure is one more possible
response of the abstracted HTTP layer. -/
structure NewsResponse where
  status : Option String
  articles : List Article
deriving Repr, DecidableEq

/-- `_news_request` (src/enrich/news.py:27-51), with the HTTP layer
abstracted to a deterministic response function `api query fromD toD`.
For a deterministic `api` the TTL cache `_cache` (and the per-pass
`query_cache` of `enrich_news`) only affects call counts, never values, so
both are semantically transparent here. -/
def _news_request (apiKey : Option String)
    (api : String → Int → Int → NewsResponse)
    (query : String) (fromD toD : Int) : NewsResponse :=
  if apiKey = none ∨ apiKey = some "" then ⟨some "missing_key", []⟩
  else api query fromD toD

/-- The columns of one row that `enrich_news` reads.  `trade_date` is a day
number (`NaT` = `none`); dates only shift by `window_days`, so their exact
calendar encoding is irrelevant to every claim. -/
structure ERow where
  trade_date : Option Int
  ticker : Option String
  stock_clean : Option String
deriving Repr, DecidableEq

/-- What `enrich_news` appends to one row. -/
structure EnrichOut where
  headlines : List Article
  headline_count : Nat
  first_source : Option String
  news_status : String
deriving Repr, DecidableEq

/-- The body of the row loop of `enrich_news` (src/enrich/news.py:65-99).
`row.get("ticker") or row.get("stock_clean")` falls through on `None` and
on the empty string (Python truthiness). -/
def enrichRow (apiKey : Option String) (api : String → Int → Int → NewsResponse)
    (window_days : Int) (maxArts : Nat) (r : ERow) : EnrichOut :=
  match r.trade_date with
  | none => ⟨[], 0, some "", "no_date"⟩
  | some td =>
    let token : Option String :=
      match r.ticker with
      | some s => if s ≠ "" then some s else r.stock_clean
      | none => r.stock_clean
    match token with
    | none => ⟨[], 0, some "", "no_query"⟩
    | some tok =>
      if tok = "" then ⟨[], 0, some "", "no_query"⟩
      else
        let query := "\"" ++ tok ++ "\""
        let result := _news_request apiKey api query (td - window_days) (td + window_days)
        let arts := result.articles.take maxArts
        let firstSource : Option String :=
          match arts.head? with
          | some a => a.source_name
          | none => some ""
        ⟨arts, arts.length, firstSource, result.status.getD "unknown"⟩

/-- `enrich_news` (src/enrich/news.py:53-105): per-row outputs in row order.
The early return for `df.empty or "trade_date" not in df.columns` maps to
the empty row list (rows carry the `trade_date` field by type). -/
def enrich_news (apiKey : Option String) (api : String → Int → Int → NewsResponse)
    (window_days : Int) (maxArts : Nat) (rows : List ERow) : List EnrichOut :=
  rows.map (enrichRow apiKey api window_days maxArts)

/-- The columns of one row that the scoring model reads.  The grouping keys
(`Politician`, `stock_clean`) are strings, as ingestion produces them. -/
structure SRow where
  politician : String
  stock_clean : String
  sector : Option String
  amount_low : Option ℚ
  amount_high : Option ℚ
  amount_mid : Option ℚ
  headline_count : Option ℚ
  days_to_event : Option ℚ
  event_flag : Option ℚ
deriving Repr, DecidableEq, Inhabited

/-- A dataset for the scoring model: rows plus column-presence flags
mirroring the `"..." in df.columns` checks. -/
structure SFrame where
  rows : List SRow
  hasStockClean : Bool
  hasHeadlineCount : Bool
  hasDaysToEvent : Bool
  hasEventFlag : Bool
deriving Repr, DecidableEq

/-- Minimum of a list of rationals (`none` on empty). -/
def qListMin : List ℚ → Option ℚ
  | [] => none
  | x :: t =>
    match qListMin t with
    | none => some x
    | some m => some (min x m)

/-- Maximum of a list of rationals (`none` on empty). -/
def qListMax : List ℚ → Option ℚ
  | [] => none
  | x :: t =>
    match qListMax t with
    | none => some x
    | some m => some (max x m)

/-- `Series.min()` / `Series.max()` skip NaN: reduce the non-null values. -/
def seriesMin (l : List (Option ℚ)) : Option ℚ := qListMin (l.filterMap id)

def seriesMax (l : List (Option ℚ)) : Option ℚ := qListMax (l.filterMap id)

/-- `_norm` (src/scoring/model.py:26-32).  A `none` (NaN/None) input returns
0 by the first guard.  With a NaN range (`none` min or max, possible only
when the whole column is NaN) `rng <= 0` is false and the division gives
NaN; that branch is unreachable for a non-NaN `x` drawn from the same
column. -/
def _norm (x : Option ℚ) (min_x max_x : Option ℚ) : Option ℚ :=
  match x with
  | none => some 0
  | some v =>
    match min_x, max_x with
    | some mn, some mx => if mx - mn ≤ 0 then some 0 else some ((v - mn) / (mx - mn))
    | _, _ => none

/-- `amount_mid.fillna(amount_low).fillna(amount_high)` at one row. -/
def amtValue (r : SRow) : Option ℚ :=
  (r.amount_mid.orElse (fun _ => r.amount_low)).orElse (fun _ => r.amount_high)

/-- `score_amount` (src/scoring/model.py:34-37). -/
def score_amount (f : SFrame) : List (Option ℚ) :=
  let amt := f.rows.map amtValue
  amt.map (fun v => _norm v (seriesMin amt) (seriesMax amt))

def SECTOR_VOL : List (String × ℚ) :=
  [("Technology", 85/100), ("Energy", 90/100), ("Healthcare", 70/100),
   ("Financial", 65/100), ("Industrials", 60/100),
   ("Consumer Discretionary", 75/100), ("Utilities", 30/100)]

/-- `df["Sector"].map(SECTOR_VOL).fillna(0.5)` at one row: an unknown or
null sector gets the neutral 0.5. -/
def sectorVol (sector : Option String) : ℚ :=
  match sector with
  | none => 1/2
  | some s =>
    match SECTOR_VOL.find? (fun p => p.1 = s) with
    | some p => p.2
    | none => 1/2

/-- `score_sector_volatility` (src/scoring/model.py:39-40). -/
def score_sector_volatility (f : SFrame) : List (Option ℚ) :=
  f.rows.map (fun r => some (sectorVol r.sector))

/-- `score_news_intensity` (src/scoring/model.py:42-47). -/
def score_news_intensity (f : SFrame) : List (Option ℚ) :=
  if f.hasHeadlineCount then
    let hc := f.rows.map (fun r => r.headline_count.getD 0)
    hc.map (fun v => _norm (some v) (qListMin hc) (qListMax hc))
  else f.rows.map (fun _ => some 0)

/-- Python `min(v, m)` on floats: `m if m < v else v`; NaN comparisons are
false, so a NaN first argument propagates and a NaN second argument returns
the first. -/
def pyMin : Option ℚ → Option ℚ → Option ℚ
  | a, none => a
  | none, some _ => none
  | some x, some y => some (if y < x then y else x)

/-- Float division with a possibly-zero denominator: `0/0` is NaN, `x/0` is
±inf; both modelled as `none` (only `0/0` is reachable here: the numerator
`min(v, max_d)` is 0 whenever `max_d = 0`). -/
def fdiv : Option ℚ → Option ℚ → Option ℚ
  | some a, some b => if b = 0 then none else some (a / b)
  | _, _ => none

/-- `1 - x` with NaN propagation. -/
def fsub1 : Option ℚ → Option ℚ
  | some x => some (1 - x)
  | none => none

/-- NaN-propagating addition / multiplication of floats. -/
def fadd : Option ℚ → Option ℚ → Option ℚ
  | some x, some y => some (x + y)
  | _, _ => none

def fmul : Option ℚ → Option ℚ → Option ℚ
  | some x, some y => some (x * y)
  | _, _ => none

/-- `score_event_proximity` (src/scoring/model.py:49-56). -/
def score_event_proximity (f : SFrame) : List (Option ℚ) :=
  if f.hasDaysToEvent then
    let d := f.rows.map (fun r => r.days_to_event.map abs)
    let max_d : Option ℚ := if f.rows.isEmpty then some 1 else seriesMax d
    d.map (fun v => fsub1 (fdiv (pyMin v max_d) max_d))
  else if f.hasEventFlag then
    f.rows.map (fun r => some (r.event_flag.getD 0))
  else f.rows.map (fun _ => some 0)

/-- `groupby(["Politician","stock_clean"]).transform("count")` at one row:
how many rows of the batch share this row's (politician, stock) pair. -/
def pairCount (f : SFrame) (r : SRow) : Nat :=
  (f.rows.filter (fun x => x.politician = r.politician && x.stock_clean = r.stock_clean)).length

/-- `combo_counts.max() or 1` (every count is at least 1 on a non-empty
frame, so `or 1` only rescues the empty case). -/
def maxPairCount (f : SFrame) : Nat :=
  let m := (f.rows.map (fun r => pairCount f r)).foldl max 0
  if m = 0 then 1 else m

/-- `score_pattern` (src/scoring/model.py:58-63). -/
def score_pattern (f : SFrame) : List (Option ℚ) :=
  if f.hasStockClean then
    let max_c := maxPairCount f
    f.rows.map (fun r =>
      if 1 < max_c then some (((pairCount f r : ℚ) - 1) / ((max_c : ℚ) - 1))
      else some 0)
  else f.rows.map (fun _ => some 0)

def WEIGHTS : List (String × ℚ) :=
  [("amount", 45/100), ("sector_volatility", 15/100), ("news_intensity", 15/100),
   ("event_proximity", 15/100), ("pattern", 10/100)]

def weightOf (k : String) : ℚ :=
  match (WEIGHTS.filter (fun p => p.1 = k)).head? with
  | some p => p.2
  | none => 0

/-- numpy round-half-to-even on one rational. -/
def roundHalfEven (q : ℚ) : ℤ :=
  let fl := ⌊q⌋
  let fr := q - fl
  if fr < 1/2 then fl
  else if 1/2 < fr then fl + 1
  else if fl % 2 = 0 then fl else fl + 1

/-- `.round(2)`: round half to even at two decimals. -/
def round2 (q : ℚ) : ℚ := (roundHalfEven (q * 100) : ℚ) / 100

/-- One output row of `compute_scores`: the input row plus exactly the seven
appended columns. -/
structure ScoredRow where
  base : SRow
  score_amount : Option ℚ
  score_sector_volatility : Option ℚ
  score_news_intensity : Option ℚ
  score_event_proximity : Option ℚ
  score_pattern : Option ℚ
  score_raw : ℚ
  score : ℚ
deriving Repr, DecidableEq

structure ScoredFrame where
  rows : List ScoredRow
  hasStockClean : Bool
  hasHeadlineCount : Bool
  hasDaysToEvent : Bool
  hasEventFlag : Bool
deriving Repr, DecidableEq

/-- The weighted sum Series of `compute_scores` (NaN-propagating float
arithmetic; only the event component can be NaN). -/
def weightedSum (f : SFrame) : List (Option ℚ) :=
  List.zipWith fadd
    (List.zipWith fadd
      (List.zipWith fadd
        (List.zipWith fadd
          ((score_amount f).map (fun x => fmul x (some (weightOf "amount"))))
          ((score_sector_volatility f).map (fun x => fmul x (some (weightOf "sector_volatility")))))
        ((score_news_intensity f).map (fun x => fmul x (some (weightOf "news_intensity")))))
      ((score_event_proximity f).map (fun x => fmul x (some (weightOf "event_proximity")))))
    ((score_pattern f).map (fun x => fmul x (some (weightOf "pattern"))))

/-- `raw = weighted.fillna(0)`. -/
def rawScores (f : SFrame) : List ℚ := (weightedSum f).map (fun w => w.getD 0)

/-- `(raw.max() - raw.min()) or 1`. -/
def scoreDenom (f : SFrame) : ℚ :=
  let raw := rawScores f
  let rng := (qListMax raw).getD 0 - (qListMin raw).getD 0
  if rng = 0 then 1 else rng

/-- `compute_scores` (src/scoring/model.py:65-90).  The source copies the
input frame (`df = df.copy()`) and adds columns to the copy; here the input
`SFrame` is untouched by construction and each output row carries its input
row in `base`. -/
def compute_scores (f : SFrame) : ScoredFrame :=
  if f.rows.isEmpty then
    ⟨[], f.hasStockClean, f.hasHeadlineCount, f.hasDaysToEvent, f.hasEventFlag⟩
  else
    let sa := score_amount f
    let ss := score_sector_volatility f
    let sn := score_news_intensity f
    let se := score_event_proximity f
    let sp := score_pattern f
    let raw := rawScores f
    let mn := (qListMin raw).getD 0
    let denom := scoreDenom f
    let scores := raw.map (fun x => round2 (((x - mn) / denom) * 100))
    ⟨(List.range f.rows.length).map (fun i =>
        ⟨f.rows.getD i default, sa.getD i none, ss.getD i none, sn.getD i none,
         se.getD i none, sp.getD i none, raw.getD i 0, scores.getD i 0⟩),
     f.hasStockClean, f.hasHeadlineCount, f.hasDaysToEvent, f.hasEventFlag⟩

/-- A component value that is a real number lying within [0, 1] (a NaN cell,
modelled `none`, does not qualify). -/
def InUnit (v : Option ℚ) : Prop := ∃ q, v = some q ∧ 0 ≤ q ∧ q ≤ 1

/-- A final score lying within [0, 100]. -/
def InScoreRange (q : ℚ) : Prop := 0 ≤ q ∧ q ≤ 100

/-- The required-key check `EXPECTED_HEADERS.issubset(mapping.keys())` that
`parse_table` applies to a row with at least six cells. -/
def rowMappingOk (headers : List String) (r : HtmlRow) : Bool :=
  EXPECTED_HEADERS.all (fun k =>
    (((headers.take 6).zip ((tdTexts r).take 6)).any (fun p => p.1 = k)))

/-- The frame `normalize_records` actually returns for an empty parse:
pandas re-indexes the empty frame when the one-element warning list is
assigned after the scalar columns, leaving one placeholder row whose
provenance cells are all NaN. -/
def emptyNormalizedFrame : PFrame :=
  ⟨1, [("scrape_ts", [.nan]), ("source_url", [.nan]), ("header_hash", [.nan]),
       ("parse_warnings", [.s "No rows parsed"])]⟩

/-- A date parser for concrete runs (its value is irrelevant to every claim
settled on `normalize_records`). -/
def dateNone : String → Option Int := fun _ => none

/-- The five documented news statuses of the spec. -/
def SPEC_NEWS_STATUSES : List String := ["ok", "missing_key", "error", "no_date", "no_query"]

/-- A news API stub whose responses carry no `status` field. -/
def apiNoStatus : String → Int → Int → NewsResponse := fun _ _ _ => ⟨none, []⟩

/-- A scoring row with only the fields a given test needs. -/
def mkSRow (p st : String) (sec : Option String) (amid : Option ℚ) : SRow :=
  ⟨p, st, sec, none, none, amid, none, none, none⟩

/-- Three trades of (A, X) and one of (B, Y): the pattern-score example. -/
def exF3 : SFrame :=
  ⟨[mkSRow "A" "X" (some "Technology") (some 20000),
    mkSRow "A" "X" (some "Technology") (some 20000),
    mkSRow "A" "X" (some "Technology") (some 20000),
    mkSRow "B" "Y" (some "Energy") (some 50000)], true, false, false, false⟩

/-- One trade whose `days_to_event` is 0: `max |days|` of the batch is 0. -/
def exFEvent : SFrame :=
  ⟨[⟨"A", "X", none, none, none, none, none, some 0, none⟩], true, false, true, false⟩

/-- Two rows with identical scoring inputs: a zero-variance batch. -/
def exFSame : SFrame :=
  ⟨[mkSRow "A" "X" (some "Technology") (some 20000),
    mkSRow "B" "Y" (some "Technology") (some 20000)], true, false, false, false⟩

/-- Two rows with a well-behaved `days_to_event` column. -/
def exFDays : SFrame :=
  ⟨[⟨"A", "X", some "Technology", none, none, some 15000, none, some 1, none⟩,
    ⟨"B", "Y", some "Energy", none, none, some 50000, none, some (-3), none⟩],
   true, false, true, false⟩

/-- One enrichment row carrying a date and a cleaned stock name. -/
def exERow : ERow := ⟨some 0, none, some "Apple"⟩


/-- The header list the candidate search extracts from `exHeaderRow`. -/
def exHdrs : List String := EXPECTED_HEADERS

def exTbl2 : HtmlTable := [exHeaderRow, exGoodRow, exShortRow]

def exDoc2 : HtmlDoc := [exTbl2]

def exRec2 : TradeRecordRaw :=
  ⟨some "Jane Doe", some "Apple Inc", some "Purchase", some "2024-01-02",
   some "$15,000", some "Technology"⟩

def exPr2 : ParseResult :=
  ⟨[exRec2], "Politician||Stock||Trade Type||Trade Date||Amount||Sector", []⟩


/-- The mis-decoded en-dash byte triple that `clean_stock_name` replaces. -/
def enDashBad : List Char := ['â', '€', '“']

/-- No two adjacent whitespace characters (one conjunct of being a fixed
point of whitespace collapsing). -/
def noWsPair (a b : Char) : Prop := ¬(pyWs a = true ∧ pyWs b = true)

/-- Characterization of the fixed points of `collapseL`: no two adjacent
whitespace characters and every whitespace character is a plain space. -/
def CollapsedL (l : List Char) : Prop :=
  List.Chain' noWsPair l ∧ ∀ c ∈ l, pyWs c = true → c = ' '

/-! ### Helper lemmas -/

example : _parse_amount_bracket "$15,000" = .ok ⟨some 15000, some 15000, some 15000⟩ := rfl

example : _parse_amount_bracket "$15K - $50K" = .ok ⟨some 15000, some 50000, some 32500⟩ := rfl

example : _parse_amount_bracket "" = .ok allNullAmount := rfl

example : _parse_amount_bracket "garbage" = .ok allNullAmount := rfl

example : _parse_amount_bracket "." = .error "ValueError: could not convert string to float" := rfl

example : clean_stock_name "Apple Inc Common Stock" = "Apple" := by decide

example : clean_stock_name "Foo Corp - Class A" = "Foo" := by decide

example : clean_stock_name "" = "" := by decide

example : clean_stock_name "Boo Company." = "Boo" := by decide

example : clean_stock_name "A Co" = "A" := by decide

example : clean_stock_name "Foo Common  Stock" = "Foo Common Stock" := by decide

example : clean_stock_name "Foo Common Stock" = "Foo" := by decide

example :
    normalize_records (fun _ => none) ⟨[], "h77", []⟩ 1000 =
      .ok ⟨1, [("scrape_ts", [.nan]), ("source_url", [.nan]), ("header_hash", [.nan]),
               ("parse_warnings", [.s "No rows parsed"])]⟩ := by decide

example :
    parse_table [[exHeaderRow, exGoodRow, exShortRow]] =
      .ok ⟨[⟨some "Jane Doe", some "Apple Inc", some "Purchase", some "2024-01-02",
             some "$15,000", some "Technology"⟩],
           "Politician||Stock||Trade Type||Trade Date||Amount||Sector", []⟩ := by decide


theorem qListMin_le_of_mem {l : List ℚ} {x : ℚ} (hx : x ∈ l) :
    ∃ m, qListMin l = some m ∧ m ≤ x := by
  induction l with
  | nil => cases hx
  | cons a t ih =>
    rcases List.mem_cons.mp hx with rfl | hx
    · cases h : qListMin t with
      | none => exact ⟨x, by simp [qListMin, h], le_refl x⟩
      | some mt => exact ⟨min x mt, by simp [qListMin, h], min_le_left _ _⟩
    · obtain ⟨mt, hmt, hle⟩ := ih hx
      exact ⟨min a mt, by simp [qListMin, hmt], le_trans (min_le_right _ _) hle⟩

theorem le_qListMax_of_mem {l : List ℚ} {x : ℚ} (hx : x ∈ l) :
    ∃ m, qListMax l = some m ∧ x ≤ m := by
  induction l with
  | nil => cases hx
  | cons a t ih =>
    rcases List.mem_cons.mp hx with rfl | hx
    · cases h : qListMax t with
      | none => exact ⟨x, by simp [qListMax, h], le_refl x⟩
      | some mt => exact ⟨max x mt, by simp [qListMax, h], le_max_left _ _⟩
    · obtain ⟨mt, hmt, hle⟩ := ih hx
      exact ⟨max a mt, by simp [qListMax, hmt], le_trans hle (le_max_right _ _)⟩

theorem mem_eq_min_of_max_eq_min {l : List ℚ} {x : ℚ} (hx : x ∈ l)
    (h : qListMax l = qListMin l) : some x = qListMin l := by
  obtain ⟨mn, hmn, h1⟩ := qListMin_le_of_mem hx
  obtain ⟨mx, hmx, h2⟩ := le_qListMax_of_mem hx
  rw [hmx, hmn] at h
  rw [hmn]
  cases h
  exact congrArg some (le_antisymm h2 h1)

theorem range_map_getD {α : Type} (l : List α) (d : α) :
    (List.range l.length).map (fun i => l.getD i d) = l := by
  apply List.ext_getElem
  · simp
  · intro i h1 h2
    simp only [List.getElem_map, List.getElem_range]
    rw [List.getD_eq_getElem l d h2]

/-! ### C6 -/

/-- **C6** (confirmed): the four reference cases of the amount parser:
`"$15,000"` is a single-point bracket, `"$15K - $50K"` scales both bounds
and takes their midpoint, and the empty or digit-free string returns all
null fields. -/
theorem c6_amount_reference_cases :
    _parse_amount_bracket "$15,000" = .ok ⟨some 15000, some 15000, some 15000⟩ ∧
    _parse_amount_bracket "$15K - $50K" = .ok ⟨some 15000, some 50000, some 32500⟩ ∧
    _parse_amount_bracket "" = .ok ⟨none, none, none⟩ ∧
    _parse_amount_bracket "garbage" = .ok ⟨none, none, none⟩ :=
  ⟨rfl, rfl, rfl, rfl⟩

/-! ### C7 -/

/-- **C7** (code bug): the claim says every digit-free input yields all-null
amount fields without raising, but on inputs consisting of `.` or `,` the
regex group `[\d,.]+` still matches, and `float(".")` raises `ValueError`
inside `to_number`, which `_parse_amount_bracket` lets escape.  A digit-free
string without `.`/`,` does return all-null, as the claim expects. -/
theorem c7_dot_input_raises :
    _parse_amount_bracket "." = .error "ValueError: could not convert string to float" ∧
    _parse_amount_bracket "," = .error "ValueError: could not convert string to float" ∧
    _parse_amount_bracket "no digits here" = .ok ⟨none, none, none⟩ :=
  ⟨rfl, rfl, rfl⟩

/-! ### C1 -/

/-- **C1** (amended): when table extraction parses zero records,
`normalize_records` (and hence `fetch_quiver_trades`) returns a dataset
rather than raising, and its `parse_warnings` column holds the descriptive
warning — but pandas' empty-index re-indexing leaves ONE placeholder row
whose `scrape_ts` / `source_url` / `header_hash` cells are all NaN instead
of carrying the provenance values. -/
theorem c1_empty_parse_returns_dataset (dp : String → Option Int) (pr : ParseResult)
    (ts : Int) (h : pr.records = []) (doc : HtmlDoc)
    (hdoc : parse_table doc = .ok pr) :
    normalize_records dp pr ts = .ok emptyNormalizedFrame ∧
    fetch_quiver_trades dp doc ts = .ok emptyNormalizedFrame := by
  obtain ⟨recs, hash, warns⟩ := pr
  simp only [ParseResult.records] at h
  subst h
  constructor
  · rfl
  · show (parse_table doc).bind (fun pr => normalize_records dp pr ts) = _
    rw [hdoc]
    rfl

/-- **C1** counterexample: at the concrete empty parse result the claim as
stated fails: the returned frame is not empty (one placeholder row) and its
`scrape_ts` column holds NaN, not the fetch timestamp 1000. -/
theorem c1_counterexample :
    normalize_records dateNone ⟨[], "h77", []⟩ 1000 = .ok emptyNormalizedFrame ∧
    emptyNormalizedFrame.nrows ≠ 0 ∧
    getCol emptyNormalizedFrame "scrape_ts" = some [PCell.nan] ∧
    getCol emptyNormalizedFrame "scrape_ts" ≠ some [PCell.t 1000] := by
  refine ⟨rfl, by decide, by decide, by decide⟩

/-- **C1** witness: a document whose matching table has only a structurally
short data row parses to zero records, and the full pipe returns the
warning-carrying dataset. -/
theorem c1_witness :
    parse_table [[exHeaderRow, exShortRow]] =
      .ok ⟨[], "Politician||Stock||Trade Type||Trade Date||Amount||Sector", []⟩ ∧
    fetch_quiver_trades dateNone [[exHeaderRow, exShortRow]] 1000 =
      .ok emptyNormalizedFrame := by
  refine ⟨by decide, ?_⟩
  exact (c1_empty_parse_returns_dataset dateNone
    ⟨[], "Politician||Stock||Trade Type||Trade Date||Amount||Sector", []⟩ 1000 rfl
    [[exHeaderRow, exShortRow]] (by decide)).2

/-! ### C3 -/

/-- **C3** (confirmed): with the `stock_clean` column present, the pattern
score of each record is `(count - 1) / (max_count - 1)` when the batch's
maximal (politician, stock) pair count exceeds 1, and 0 for every record
when every pair occurs exactly once — no division by zero is performed. -/
theorem c3_pattern_formula (f : SFrame) (hs : f.hasStockClean = true)
    (i : Nat) (hi : i < f.rows.length) :
    (score_pattern f).getD i none =
      (if 1 < maxPairCount f
       then some (((pairCount f (f.rows.getD i default) : ℚ) - 1) / ((maxPairCount f : ℚ) - 1))
       else some 0) := by
  have hlen : (score_pattern f).length = f.rows.length := by
    simp [score_pattern, hs]
  rw [List.getD_eq_getElem _ _ (by rw [hlen]; exact hi)]
  simp only [score_pattern, hs, if_true, List.getElem_map]
  rw [List.getD_eq_getElem _ _ hi]

/-- **C3** witness: three trades of (A, X) and one of (B, Y): the X trades
score 1 and the Y trade scores 0. -/
theorem c3_witness :
    exF3.hasStockClean = true ∧ 0 < exF3.rows.length ∧ 3 < exF3.rows.length ∧
    (score_pattern exF3).getD 0 none = some 1 ∧
    (score_pattern exF3).getD 3 none = some 0 := by
  refine ⟨rfl, by decide, by decide, ?_, ?_⟩
  · rw [c3_pattern_formula exF3 rfl 0 (by decide)]
    decide
  · rw [c3_pattern_formula exF3 rfl 3 (by decide)]
    decide

/-! ### Component lengths -/

theorem score_amount_length (f : SFrame) : (score_amount f).length = f.rows.length := by
  simp [score_amount]

theorem score_sector_volatility_length (f : SFrame) :
    (score_sector_volatility f).length = f.rows.length := by
  simp [score_sector_volatility]

theorem score_news_intensity_length (f : SFrame) :
    (score_news_intensity f).length = f.rows.length := by
  unfold score_news_intensity
  split <;> simp

theorem score_event_proximity_length (f : SFrame) :
    (score_event_proximity f).length = f.rows.length := by
  unfold score_event_proximity
  split
  · simp
  · split <;> simp

theorem score_pattern_length (f : SFrame) :
    (score_pattern f).length = f.rows.length := by
  unfold score_pattern
  split <;> simp

theorem weightedSum_length (f : SFrame) : (weightedSum f).length = f.rows.length := by
  simp [weightedSum, List.length_zipWith, score_amount_length, score_sector_volatility_length,
        score_news_intensity_length, score_event_proximity_length, score_pattern_length]

theorem rawScores_length (f : SFrame) : (rawScores f).length = f.rows.length := by
  simp [rawScores, weightedSum_length]

/-! ### C5 -/

/-- **C5** (confirmed): on a non-empty batch whose weighted sums have zero
variance (max equals min), the rescaling denominator of `compute_scores`
falls back to 1 (no division by zero) and every record receives the same
final score (the rescaled value 0). -/
theorem c5_zero_variance_collapse (f : SFrame) (hne : f.rows ≠ [])
    (h : qListMax (rawScores f) = qListMin (rawScores f)) :
    scoreDenom f = 1 ∧ ∀ r ∈ (compute_scores f).rows, r.score = 0 := by
  have hraw : rawScores f ≠ [] := by
    intro hh
    have hl := rawScores_length f
    rw [hh] at hl
    exact hne (List.length_eq_zero.mp hl.symm)
  obtain ⟨a, t, hat⟩ := List.exists_cons_of_ne_nil hraw
  have hsome : ∃ m, qListMin (rawScores f) = some m := by
    rw [hat]
    cases h2 : qListMin t <;> simp [qListMin, h2]
  obtain ⟨m, hm⟩ := hsome
  have hdenom : scoreDenom f = 1 := by
    unfold scoreDenom
    simp only [h, hm]
    simp
  have hemp : f.rows.isEmpty = false := by
    cases hfr : f.rows with
    | nil => exact absurd hfr hne
    | cons x xs => rfl
  refine ⟨hdenom, ?_⟩
  intro r hr
  simp only [compute_scores, hemp, Bool.false_eq_true, if_false, List.mem_map,
    List.mem_range] at hr
  obtain ⟨i, hi, hri⟩ := hr
  have hilen : i < (rawScores f).length := by rw [rawScores_length]; exact hi
  have hval : (rawScores f).getD i 0 = m := by
    rw [List.getD_eq_getElem _ _ hilen]
    have hmem := List.getElem_mem hilen
    have := mem_eq_min_of_max_eq_min hmem h
    rw [hm] at this
    exact (Option.some_inj.mp this.symm).symm
  have hscore : r.score =
      ((rawScores f).map (fun x =>
        round2 (((x - (qListMin (rawScores f)).getD 0) / scoreDenom f) * 100))).getD i 0 := by
    rw [← hri]
  rw [hscore]
  have hmlen : i < ((rawScores f).map (fun x =>
      round2 (((x - (qListMin (rawScores f)).getD 0) / scoreDenom f) * 100))).length := by
    rw [List.length_map]; exact hilen
  rw [List.getD_eq_getElem _ _ hmlen, List.getElem_map]
  rw [← List.getD_eq_getElem _ (0 : ℚ) hilen, hval, hm, hdenom]
  norm_num [round2, roundHalfEven]

/-- **C5** witness: two rows with identical amount/sector/news/event/pattern
inputs form a zero-variance batch; both final scores coincide. -/
theorem c5_witness :
    exFSame.rows ≠ [] ∧
    qListMax (rawScores exFSame) = qListMin (rawScores exFSame) ∧
    (scoreDenom exFSame = 1 ∧ ∀ r ∈ (compute_scores exFSame).rows, r.score = 0) :=
  ⟨by decide, by decide, c5_zero_variance_collapse exFSame (by decide) (by decide)⟩

/-! ### C10 -/

/-- **C10** (confirmed): `compute_scores` is a pure extension of a non-empty
input: the output has the same number of rows in the same order, each output
row embeds its input row unchanged (`base`), exactly the seven score fields
are added (the shape of `ScoredRow`), and the column-presence flags pass
through; the input frame, copied by the source before any mutation, is a
value here and is untouched. -/
theorem c10_pure_extension (f : SFrame) (hne : f.rows ≠ []) :
    (compute_scores f).rows.length = f.rows.length ∧
    (compute_scores f).rows.map (fun r => r.base) = f.rows ∧
    (compute_scores f).hasStockClean = f.hasStockClean ∧
    (compute_scores f).hasHeadlineCount = f.hasHeadlineCount ∧
    (compute_scores f).hasDaysToEvent = f.hasDaysToEvent ∧
    (compute_scores f).hasEventFlag = f.hasEventFlag := by
  have hemp : f.rows.isEmpty = false := by
    cases hfr : f.rows with
    | nil => exact absurd hfr hne
    | cons x xs => rfl
  simp only [compute_scores, hemp, Bool.false_eq_true, if_false]
  refine ⟨by simp, ?_, trivial, trivial, trivial, trivial⟩
  rw [List.map_map]
  exact range_map_getD f.rows default

/-- **C10** witness. -/
theorem c10_witness :
    exF3.rows ≠ [] ∧ (compute_scores exF3).rows.map (fun r => r.base) = exF3.rows :=
  ⟨by decide, (c10_pure_extension exF3 (by decide)).2.1⟩

/-! ### C2 -/

/-- Counting what the row loop of `parse_table` keeps: records come exactly
from the rows with at least six td cells whose mapping passes the
required-key check, warnings exactly from the six-cell rows that fail it;
short rows contribute to neither. -/
theorem parse_outcomes_counts (headers : List String) (rows : List HtmlRow) :
    ((rows.map (processRow headers)).filterMap
        (fun o => match o with | RowOutcome.record rec => some rec | _ => none)).length =
      (rows.filter (fun r => !((tdTexts r).length < 6) && rowMappingOk headers r)).length ∧
    ((rows.map (processRow headers)).filterMap
        (fun o => match o with | RowOutcome.missing w => some w | _ => none)).length =
      (rows.filter (fun r => !((tdTexts r).length < 6) && !(rowMappingOk headers r))).length := by
  induction rows with
  | nil => simp
  | cons r t ih =>
    obtain ⟨ih1, ih2⟩ := ih
    by_cases h6 : (tdTexts r).length < 6
    · have hp : processRow headers r = .short := by
        unfold processRow
        simp [h6]
      constructor
      · simpa [hp, h6] using ih1
      · simpa [hp, h6] using ih2
    · by_cases hok : rowMappingOk headers r
      · have hp : processRow headers r = .record
            ⟨dictGet ((headers.take 6).zip ((tdTexts r).take 6)) "Politician",
             dictGet ((headers.take 6).zip ((tdTexts r).take 6)) "Stock",
             dictGet ((headers.take 6).zip ((tdTexts r).take 6)) "Trade Type",
             dictGet ((headers.take 6).zip ((tdTexts r).take 6)) "Trade Date",
             dictGet ((headers.take 6).zip ((tdTexts r).take 6)) "Amount",
             dictGet ((headers.take 6).zip ((tdTexts r).take 6)) "Sector"⟩ := by
          unfold rowMappingOk at hok
          unfold processRow
          simp [h6, hok]
        constructor
        · simpa [hp, h6, hok] using ih1
        · simpa [hp, h6, hok] using ih2
      · have hp : processRow headers r = .missing
            ("Row missing expected columns: " ++
              renderMapping ((headers.take 6).zip ((tdTexts r).take 6))) := by
          unfold rowMappingOk at hok
          unfold processRow
          simp [h6, hok]
        constructor
        · simpa [hp, h6, hok] using ih1
        · simpa [hp, h6, hok] using ih2

/-- **C2** (amended): for a document whose candidate table is found, a data
row with fewer than six td cells is excluded from the records AND produces
NO warning — malformed short rows are dropped silently.  Warnings arise only
from rows with at least six cells whose six-cell mapping misses a required
column. -/
theorem c2_short_rows_dropped_silently (doc : HtmlDoc) (tbl : HtmlTable)
    (headers : List String) (pr : ParseResult)
    (hfind : findCandidate doc = some (tbl, headers))
    (hok : parse_table doc = .ok pr) :
    pr.records.length =
      ((tbl.drop 1).filter
        (fun r => !((tdTexts r).length < 6) && rowMappingOk headers r)).length ∧
    pr.warnings.length =
      ((tbl.drop 1).filter
        (fun r => !((tdTexts r).length < 6) && !(rowMappingOk headers r))).length := by
  unfold parse_table at hok
  by_cases hd : doc.isEmpty
  · rw [if_pos hd] at hok
    cases hok
  · rw [if_neg hd, hfind] at hok
    cases hok
    exact parse_outcomes_counts headers (tbl.drop 1)

/-- **C2** counterexample: a matching table with one good and one five-cell
row: the short row is excluded (one record remains) but the warning list is
EMPTY — no warning documents the dropped row, contrary to the claim. -/
theorem c2_counterexample :
    (parse_table exDoc2).toOption.map (fun pr => (pr.records.length, pr.warnings)) =
      some (1, []) := by decide

/-- **C2** witness. -/
theorem c2_witness :
    exPr2.records.length =
      ((exTbl2.drop 1).filter
        (fun r => !((tdTexts r).length < 6) && rowMappingOk exHdrs r)).length ∧
    exPr2.warnings.length =
      ((exTbl2.drop 1).filter
        (fun r => !((tdTexts r).length < 6) && !(rowMappingOk exHdrs r))).length :=
  c2_short_rows_dropped_silently exDoc2 exTbl2 exHdrs exPr2 (by decide) (by decide)

/-! ### C9 -/

/-- **C9** (amended): every `news_status` assigned by `enrich_news` is
`no_date`, `no_query`, `missing_key`, the literal `"unknown"` (response with
no `status` field), or whatever `status` string the API response for some
query carries — `"ok"` and `"error"` are what the real API and the
caught-exception path produce, but nothing constrains a live response to
the documented set.  With the credential absent, nothing raises: every row
degrades to `no_date` / `no_query` / `missing_key` with empty headlines. -/
theorem c9_news_status_set (apiKey : Option String)
    (api : String → Int → Int → NewsResponse) (wd : Int) (ma : Nat)
    (rows : List ERow) :
    (∀ o ∈ enrich_news apiKey api wd ma rows,
      o.news_status = "no_date" ∨ o.news_status = "no_query" ∨
      o.news_status = "missing_key" ∨ o.news_status = "unknown" ∨
      (∃ q fd td, (api q fd td).status = some o.news_status)) ∧
    ((apiKey = none ∨ apiKey = some "") →
      ∀ o ∈ enrich_news apiKey api wd ma rows,
        (o.news_status = "no_date" ∨ o.news_status = "no_query" ∨
         o.news_status = "missing_key") ∧ o.headlines = [] ∧ o.headline_count = 0) := by
  constructor
  · intro o ho
    rw [enrich_news, List.mem_map] at ho
    obtain ⟨r, hr, rfl⟩ := ho
    unfold enrichRow
    cases htd : r.trade_date with
    | none => exact Or.inl rfl
    | some td =>
      cases htok : (match r.ticker with
          | some s => if s ≠ "" then some s else r.stock_clean
          | none => r.stock_clean) with
      | none => exact Or.inr (Or.inl rfl)
      | some tok =>
        by_cases he : tok = ""
        · simp only [he, if_pos rfl]
          exact Or.inr (Or.inl rfl)
        · simp only [if_neg he]
          unfold _news_request
          by_cases hk : apiKey = none ∨ apiKey = some ""
          · simp only [if_pos hk]
            exact Or.inr (Or.inr (Or.inl rfl))
          · simp only [if_neg hk]
            cases hst : (api ("\"" ++ tok ++ "\"") (td - wd) (td + wd)).status with
            | none => exact Or.inr (Or.inr (Or.inr (Or.inl (by simp [hst]))))
            | some s =>
              refine Or.inr (Or.inr (Or.inr (Or.inr
                ⟨"\"" ++ tok ++ "\"", td - wd, td + wd, ?_⟩)))
              simp [hst]
  · intro hk o ho
    rw [enrich_news, List.mem_map] at ho
    obtain ⟨r, hr, rfl⟩ := ho
    unfold enrichRow
    cases htd : r.trade_date with
    | none => exact ⟨Or.inl rfl, rfl, rfl⟩
    | some td =>
      cases htok : (match r.ticker with
          | some s => if s ≠ "" then some s else r.stock_clean
          | none => r.stock_clean) with
      | none => exact ⟨Or.inr (Or.inl rfl), rfl, rfl⟩
      | some tok =>
        by_cases he : tok = ""
        · simp only [he, if_pos rfl]
          exact ⟨Or.inr (Or.inl rfl), rfl, rfl⟩
        · simp only [if_neg he]
          unfold _news_request
          simp only [if_pos hk]
          exact ⟨Or.inr (Or.inr rfl), by simp, by simp⟩

/-- **C9** counterexample: with a credential present and an API response
lacking a `status` field, the assigned status is the literal `"unknown"`,
which is outside the documented five-status set. -/
theorem c9_counterexample :
    (enrich_news (some "k") apiNoStatus 2 5 [exERow]).map (fun o => o.news_status) =
      ["unknown"] ∧ ("unknown" ∈ SPEC_NEWS_STATUSES → False) := by decide

/-- **C9** witness: with no credential, both a dated and an undated row
degrade without raising: statuses stay in the no-data set and headlines are
empty. -/
theorem c9_witness :
    ((none : Option String) = none ∨ (none : Option String) = some "") ∧
    (∀ o ∈ enrich_news none apiNoStatus 2 5 [exERow, ⟨none, none, none⟩],
      (o.news_status = "no_date" ∨ o.news_status = "no_query" ∨
       o.news_status = "missing_key") ∧ o.headlines = [] ∧ o.headline_count = 0) :=
  ⟨Or.inl rfl,
   (c9_news_status_set none apiNoStatus 2 5 [exERow, ⟨none, none, none⟩]).2 (Or.inl rfl)⟩

/-! ### C4 -/

theorem inUnit_some_zero : InUnit (some 0) := ⟨0, rfl, le_refl 0, by norm_num⟩

theorem inUnit_norm_some {x mn mx : ℚ} (h1 : mn ≤ x) (h2 : x ≤ mx) :
    InUnit (_norm (some x) (some mn) (some mx)) := by
  show InUnit (if mx - mn ≤ 0 then some 0 else some ((x - mn) / (mx - mn)))
  by_cases h : mx - mn ≤ 0
  · rw [if_pos h]
    exact inUnit_some_zero
  · rw [if_neg h]
    push_neg at h
    refine ⟨(x - mn) / (mx - mn), rfl, ?_, ?_⟩
    · exact div_nonneg (by linarith) (by linarith)
    · rw [div_le_one (by linarith)]
      linarith

theorem score_amount_inUnit (f : SFrame) : ∀ v ∈ score_amount f, InUnit v := by
  intro v hv
  unfold score_amount at hv
  rw [List.mem_map] at hv
  obtain ⟨a, ha, rfl⟩ := hv
  cases a with
  | none => exact inUnit_some_zero
  | some x =>
    have hxmem : x ∈ (f.rows.map amtValue).filterMap id := by
      rw [List.mem_filterMap]
      exact ⟨some x, ha, rfl⟩
    obtain ⟨mn, hmn, h1⟩ := qListMin_le_of_mem hxmem
    obtain ⟨mx, hmx, h2⟩ := le_qListMax_of_mem hxmem
    unfold seriesMin seriesMax
    rw [hmn, hmx]
    exact inUnit_norm_some h1 h2

theorem sectorVol_mem_bounds : ∀ p ∈ SECTOR_VOL, 0 ≤ p.2 ∧ p.2 ≤ 1 := by decide

theorem score_sector_inUnit (f : SFrame) : ∀ v ∈ score_sector_volatility f, InUnit v := by
  intro v hv
  unfold score_sector_volatility at hv
  rw [List.mem_map] at hv
  obtain ⟨r, hr, rfl⟩ := hv
  refine ⟨sectorVol r.sector, rfl, ?_⟩
  cases hsec : r.sector with
  | none =>
    simp only [sectorVol]
    norm_num
  | some s =>
    cases hfind : SECTOR_VOL.find? (fun p => p.1 = s) with
    | none =>
      simp only [sectorVol, hfind]
      norm_num
    | some p =>
      have hp : p ∈ SECTOR_VOL := List.mem_of_find?_eq_some hfind
      have hb := sectorVol_mem_bounds p hp
      simpa [sectorVol, hfind] using hb

theorem score_news_inUnit (f : SFrame) : ∀ v ∈ score_news_intensity f, InUnit v := by
  intro v hv
  unfold score_news_intensity at hv
  by_cases hh : f.hasHeadlineCount = true
  · simp only [hh, if_true, List.mem_map] at hv
    obtain ⟨x, hx, rfl⟩ := hv
    obtain ⟨a, ha, rfl⟩ := hx
    have hxm : a.headline_count.getD 0 ∈ f.rows.map (fun r => r.headline_count.getD 0) :=
      List.mem_map_of_mem _ ha
    obtain ⟨mn, hmn, h1⟩ := qListMin_le_of_mem hxm
    obtain ⟨mx, hmx, h2⟩ := le_qListMax_of_mem hxm
    rw [hmn, hmx]
    exact inUnit_norm_some h1 h2
  · have hh' : f.hasHeadlineCount = false := by
      revert hh
      cases f.hasHeadlineCount <;> simp
    simp only [hh', Bool.false_eq_true, if_false, List.mem_map] at hv
    obtain ⟨r, hr, rfl⟩ := hv
    exact inUnit_some_zero

theorem score_event_inUnit (f : SFrame)
    (hdays : f.hasDaysToEvent = true →
      (∀ r ∈ f.rows, r.days_to_event ≠ none) ∧
      ∃ r ∈ f.rows, r.days_to_event.getD 0 ≠ 0)
    (hflag : f.hasDaysToEvent = false → f.hasEventFlag = true →
      ∀ r ∈ f.rows, 0 ≤ r.event_flag.getD 0 ∧ r.event_flag.getD 0 ≤ 1) :
    ∀ v ∈ score_event_proximity f, InUnit v := by
  intro v hv
  unfold score_event_proximity at hv
  by_cases hd : f.hasDaysToEvent = true
  · obtain ⟨hall, r0, hr0, hne0⟩ := hdays hd
    have hemp : f.rows.isEmpty = false := by
      cases hfr : f.rows with
      | nil => rw [hfr] at hr0; cases hr0
      | cons a t => rfl
    simp only [hd, if_true, hemp, Bool.false_eq_true, if_false] at hv
    rw [List.mem_map] at hv
    obtain ⟨a, ha, rfl⟩ := hv
    rw [List.mem_map] at ha
    obtain ⟨r, hr, rfl⟩ := ha
    obtain ⟨y, hy⟩ : ∃ y, r.days_to_event = some y := by
      cases hcase : r.days_to_event with
      | none => exact absurd hcase (hall r hr)
      | some y => exact ⟨y, rfl⟩
    obtain ⟨y0, hy0⟩ : ∃ y, r0.days_to_event = some y := by
      cases hcase : r0.days_to_event with
      | none => exact absurd hcase (hall r0 hr0)
      | some y => exact ⟨y, rfl⟩
    have hy0ne : y0 ≠ 0 := by
      rw [hy0] at hne0
      simpa using hne0
    have hmemy : |y| ∈ (f.rows.map (fun r => r.days_to_event.map abs)).filterMap id := by
      rw [List.mem_filterMap]
      refine ⟨some |y|, ?_, rfl⟩
      have hmm : r.days_to_event.map abs ∈
          f.rows.map (fun r : SRow => r.days_to_event.map abs) :=
        List.mem_map_of_mem _ hr
      rw [hy] at hmm
      simpa using hmm
    have hmemy0 : |y0| ∈ (f.rows.map (fun r => r.days_to_event.map abs)).filterMap id := by
      rw [List.mem_filterMap]
      refine ⟨some |y0|, ?_, rfl⟩
      have hmm : r0.days_to_event.map abs ∈
          f.rows.map (fun r : SRow => r.days_to_event.map abs) :=
        List.mem_map_of_mem _ hr0
      rw [hy0] at hmm
      simpa using hmm
    obtain ⟨M, hM, hleM⟩ := le_qListMax_of_mem hmemy
    obtain ⟨M2, hM2, hleM2⟩ := le_qListMax_of_mem hmemy0
    rw [hM] at hM2
    have hMeq : M2 = M := (Option.some_inj.mp hM2).symm
    rw [hMeq] at hleM2
    have hMpos : 0 < M := lt_of_lt_of_le (abs_pos.mpr hy0ne) hleM2
    unfold seriesMax
    rw [hy, hM]
    simp only [Option.map_some']
    have hpy : pyMin (some |y|) (some M) = some |y| := by
      simp only [pyMin]
      rw [if_neg (not_lt.mpr hleM)]
    rw [hpy]
    have hdv : fdiv (some |y|) (some M) = some (|y| / M) := by
      simp only [fdiv]
      rw [if_neg (ne_of_gt hMpos)]
    rw [hdv]
    refine ⟨1 - |y| / M, rfl, ?_, ?_⟩
    · have : |y| / M ≤ 1 := by
        rw [div_le_one hMpos]
        exact hleM
      linarith
    · have : 0 ≤ |y| / M := div_nonneg (abs_nonneg y) (le_of_lt hMpos)
      linarith
  · have hd' : f.hasDaysToEvent = false := by
      revert hd
      cases f.hasDaysToEvent <;> simp
    simp only [hd', Bool.false_eq_true, if_false] at hv
    by_cases hf : f.hasEventFlag = true
    · simp only [hf, if_true, List.mem_map] at hv
      obtain ⟨r, hr, rfl⟩ := hv
      obtain ⟨h1, h2⟩ := hflag hd' hf r hr
      exact ⟨r.event_flag.getD 0, rfl, h1, h2⟩
    · have hf' : f.hasEventFlag = false := by
        revert hf
        cases f.hasEventFlag <;> simp
      simp only [hf', Bool.false_eq_true, if_false, List.mem_map] at hv
      obtain ⟨r, hr, rfl⟩ := hv
      exact inUnit_some_zero

theorem foldl_max_le_init (l : List ℕ) (init : ℕ) : init ≤ l.foldl max init := by
  induction l generalizing init with
  | nil => exact le_refl _
  | cons a t ih => exact le_trans (le_max_left init a) (ih (max init a))

theorem le_foldl_max {l : List ℕ} {x : ℕ} (hx : x ∈ l) (init : ℕ) : x ≤ l.foldl max init := by
  induction l generalizing init with
  | nil => cases hx
  | cons a t ih =>
    rcases List.mem_cons.mp hx with rfl | hx
    · exact le_trans (le_max_right init x) (foldl_max_le_init t _)
    · exact ih hx _

theorem score_pattern_inUnit (f : SFrame) : ∀ v ∈ score_pattern f, InUnit v := by
  intro v hv
  unfold score_pattern at hv
  by_cases hs : f.hasStockClean = true
  · simp only [hs, if_true, List.mem_map] at hv
    obtain ⟨r, hr, rfl⟩ := hv
    by_cases hm : 1 < maxPairCount f
    · rw [if_pos hm]
      have hc1 : 1 ≤ pairCount f r := by
        have hmf : r ∈ f.rows.filter
            (fun x => x.politician = r.politician && x.stock_clean = r.stock_clean) := by
          rw [List.mem_filter]
          exact ⟨hr, by simp⟩
        exact List.length_pos_of_mem hmf
      have hcm : pairCount f r ≤ maxPairCount f := by
        have hmem : pairCount f r ∈ f.rows.map (fun x => pairCount f x) :=
          List.mem_map_of_mem _ hr
        have hle := le_foldl_max hmem 0
        show pairCount f r ≤
          if (f.rows.map (fun r => pairCount f r)).foldl max 0 = 0 then 1
          else (f.rows.map (fun r => pairCount f r)).foldl max 0
        split
        · omega
        · exact hle
      have hq1 : (1:ℚ) ≤ (pairCount f r : ℚ) := by exact_mod_cast hc1
      have hqm : (pairCount f r : ℚ) ≤ (maxPairCount f : ℚ) := by exact_mod_cast hcm
      have hqM : (1:ℚ) < (maxPairCount f : ℚ) := by exact_mod_cast hm
      refine ⟨_, rfl, ?_, ?_⟩
      · exact div_nonneg (by linarith) (by linarith)
      · rw [div_le_one (by linarith)]
        linarith
    · rw [if_neg hm]
      exact inUnit_some_zero
  · have hs' : f.hasStockClean = false := by
      revert hs
      cases f.hasStockClean <;> simp
    simp only [hs', Bool.false_eq_true, if_false, List.mem_map] at hv
    obtain ⟨r, hr, rfl⟩ := hv
    exact inUnit_some_zero

theorem roundHalfEven_bounds {y : ℚ} {B : ℤ} (h0 : 0 ≤ y) (hB : y ≤ (B:ℚ)) :
    0 ≤ roundHalfEven y ∧ roundHalfEven y ≤ B := by
  unfold roundHalfEven
  have hfl0 : (0:ℤ) ≤ ⌊y⌋ := Int.floor_nonneg.mpr h0
  have hflB : ⌊y⌋ ≤ B := by
    have h := Int.floor_le_floor hB
    simpa using h
  by_cases h1 : y - ⌊y⌋ < 1/2
  · rw [if_pos h1]
    exact ⟨hfl0, hflB⟩
  · rw [if_neg h1]
    have hfr : (0:ℚ) < y - ⌊y⌋ :=
      lt_of_lt_of_le (by norm_num) (not_lt.mp h1)
    have hlt : ⌊y⌋ < B := by
      have hc : (⌊y⌋:ℚ) < y := by linarith
      exact_mod_cast lt_of_lt_of_le hc hB
    refine ⟨?_, ?_⟩ <;> split <;> try split
    all_goals omega

theorem round2_inRange {q : ℚ} (h0 : 0 ≤ q) (h100 : q ≤ 100) : InScoreRange (round2 q) := by
  have hy0 : (0:ℚ) ≤ q * 100 := by positivity
  have hyB : q * 100 ≤ ((10000 : ℤ) : ℚ) := by push_cast; nlinarith
  obtain ⟨hR0, hRB⟩ := roundHalfEven_bounds hy0 hyB
  unfold InScoreRange round2
  constructor
  · positivity
  · rw [div_le_iff₀ (by norm_num : (0:ℚ) < 100)]
    have : ((roundHalfEven (q * 100) : ℤ) : ℚ) ≤ ((10000 : ℤ) : ℚ) := by exact_mod_cast hRB
    push_cast at this ⊢
    linarith

theorem final_score_inRange (f : SFrame) (x : ℚ) (hx : x ∈ rawScores f) :
    InScoreRange (round2 (((x - (qListMin (rawScores f)).getD 0) / scoreDenom f) * 100)) := by
  obtain ⟨mn, hmn, h1⟩ := qListMin_le_of_mem hx
  obtain ⟨mx, hmx, h2⟩ := le_qListMax_of_mem hx
  unfold scoreDenom
  simp only [hmn, hmx, Option.getD_some]
  by_cases hr : mx - mn = 0
  · rw [if_pos hr]
    have hxeq : x - mn = 0 := by
      have : x = mn := le_antisymm (by linarith) h1
      rw [this]
      ring
    rw [hxeq]
    norm_num
    exact round2_inRange (le_refl 0) (by norm_num)
  · rw [if_neg hr]
    have hpos : 0 < mx - mn := lt_of_le_of_ne (by linarith) (Ne.symm hr)
    apply round2_inRange
    · exact mul_nonneg (div_nonneg (by linarith) hpos.le) (by norm_num)
    · have hd1 : (x - mn) / (mx - mn) ≤ 1 := by
        rw [div_le_one hpos]
        linarith
      nlinarith

/-- **C4** (amended): on every non-empty dataset the amount,
sector-volatility, news-intensity and pattern sub-scores lie in [0,1] and
every final score lies in [0,100], unconditionally (the weighted sum is
NaN-filled with 0 before rescaling); the event-proximity sub-score lies in
[0,1] under the stated extra conditions: when the `days_to_event` column is
present it has no null cell and some non-zero value (otherwise the `0/0` in
`|days| / max|days|` makes the component NaN), and when only the
`event_flag` column is present its values (nulls read as 0) lie in [0,1]
(the flag is used verbatim as the score). -/
theorem c4_component_bounds (f : SFrame) (hne : f.rows ≠ []) :
    (∀ r ∈ (compute_scores f).rows,
      InUnit r.score_amount ∧ InUnit r.score_sector_volatility ∧
      InUnit r.score_news_intensity ∧ InUnit r.score_pattern ∧
      InScoreRange r.score) ∧
    ((f.hasDaysToEvent = true →
        (∀ r ∈ f.rows, r.days_to_event ≠ none) ∧
        ∃ r ∈ f.rows, r.days_to_event.getD 0 ≠ 0) →
      (f.hasDaysToEvent = false → f.hasEventFlag = true →
        ∀ r ∈ f.rows, 0 ≤ r.event_flag.getD 0 ∧ r.event_flag.getD 0 ≤ 1) →
      ∀ r ∈ (compute_scores f).rows, InUnit r.score_event_proximity) := by
  have hemp : f.rows.isEmpty = false := by
    cases hfr : f.rows with
    | nil => exact absurd hfr hne
    | cons a t => rfl
  constructor
  · intro r hr
    simp only [compute_scores, hemp, Bool.false_eq_true, if_false, List.mem_map,
      List.mem_range] at hr
    obtain ⟨i, hi, rfl⟩ := hr
    refine ⟨?_, ?_, ?_, ?_, ?_⟩
    · apply score_amount_inUnit
      have hl : i < (score_amount f).length := by rw [score_amount_length]; exact hi
      rw [List.getD_eq_getElem _ _ hl]
      exact List.getElem_mem hl
    · apply score_sector_inUnit
      have hl : i < (score_sector_volatility f).length := by
        rw [score_sector_volatility_length]; exact hi
      rw [List.getD_eq_getElem _ _ hl]
      exact List.getElem_mem hl
    · apply score_news_inUnit
      have hl : i < (score_news_intensity f).length := by
        rw [score_news_intensity_length]; exact hi
      rw [List.getD_eq_getElem _ _ hl]
      exact List.getElem_mem hl
    · apply score_pattern_inUnit
      have hl : i < (score_pattern f).length := by rw [score_pattern_length]; exact hi
      rw [List.getD_eq_getElem _ _ hl]
      exact List.getElem_mem hl
    · have hl : i < (rawScores f).length := by rw [rawScores_length]; exact hi
      have hml : i < ((rawScores f).map (fun x =>
          round2 (((x - (qListMin (rawScores f)).getD 0) / scoreDenom f) * 100))).length := by
        rw [List.length_map]; exact hl
      show InScoreRange (((rawScores f).map (fun x =>
          round2 (((x - (qListMin (rawScores f)).getD 0) / scoreDenom f) * 100))).getD i 0)
      rw [List.getD_eq_getElem _ _ hml, List.getElem_map]
      exact final_score_inRange f _ (List.getElem_mem hl)
  · intro hdays hflag r hr
    simp only [compute_scores, hemp, Bool.false_eq_true, if_false, List.mem_map,
      List.mem_range] at hr
    obtain ⟨i, hi, rfl⟩ := hr
    apply score_event_inUnit f hdays hflag
    have hl : i < (score_event_proximity f).length := by
      rw [score_event_proximity_length]; exact hi
    rw [List.getD_eq_getElem _ _ hl]
    exact List.getElem_mem hl

/-- **C4** counterexample: one trade whose `days_to_event` is 0 makes
`max |days|` zero; the event-proximity component produced by
`compute_scores` is then NaN (`none`), which does not lie in [0,1]. -/
theorem c4_counterexample :
    (compute_scores exFEvent).rows.map (fun r => r.score_event_proximity) = [none] ∧
    ¬ InUnit none := by
  constructor
  · decide
  · rintro ⟨q, hq, _⟩
    cases hq

/-- **C4** witness: a frame with a well-behaved `days_to_event` column:
the unconditional bounds hold, and the event hypotheses are satisfiable, so
the event component is bounded too. -/
theorem c4_witness :
    exFDays.rows ≠ [] ∧
    (exFDays.hasDaysToEvent = true →
      (∀ r ∈ exFDays.rows, r.days_to_event ≠ none) ∧
      ∃ r ∈ exFDays.rows, r.days_to_event.getD 0 ≠ 0) ∧
    (∀ r ∈ (compute_scores exFDays).rows,
      InUnit r.score_amount ∧ InUnit r.score_sector_volatility ∧
      InUnit r.score_news_intensity ∧ InUnit r.score_pattern ∧
      InScoreRange r.score) ∧
    (∀ r ∈ (compute_scores exFDays).rows, InUnit r.score_event_proximity) := by
  refine ⟨by decide, by decide, ?_, ?_⟩
  · exact (c4_component_bounds exFDays (by decide)).1
  · exact (c4_component_bounds exFDays (by decide)).2 (by decide) (by decide)

/-! ### C8: whitespace-collapse characterization -/

theorem collapseGo_head_true (l : List Char) :
    ∀ c, (collapseGo true l).head? = some c → pyWs c = false := by
  induction l with
  | nil => intro c hc; cases hc
  | cons a t ih =>
    intro c hc
    by_cases ha : pyWs a = true
    · rw [show collapseGo true (a :: t) = collapseGo true t by simp [collapseGo, ha]] at hc
      exact ih c hc
    · have ha' : pyWs a = false := by
        revert ha
        cases pyWs a <;> simp
      rw [show collapseGo true (a :: t) = a :: collapseGo false t by
        simp [collapseGo, ha']] at hc
      cases hc
      exact ha'

theorem collapseGo_mem (l : List Char) :
    ∀ b, ∀ c ∈ collapseGo b l, pyWs c = true → c = ' ' := by
  induction l with
  | nil => intro b c hc; cases hc
  | cons a t ih =>
    intro b c hc hws
    by_cases ha : pyWs a = true
    · cases b with
      | true =>
        rw [show collapseGo true (a :: t) = collapseGo true t by simp [collapseGo, ha]] at hc
        exact ih true c hc hws
      | false =>
        rw [show collapseGo false (a :: t) = ' ' :: collapseGo true t by
          simp [collapseGo, ha]] at hc
        rcases List.mem_cons.mp hc with rfl | hc
        · rfl
        · exact ih true c hc hws
    · have ha' : pyWs a = false := by
        revert ha
        cases pyWs a <;> simp
      rw [show collapseGo b (a :: t) = a :: collapseGo false t by
        cases b <;> simp [collapseGo, ha']] at hc
      rcases List.mem_cons.mp hc with rfl | hc
      · rw [hws] at ha'
        cases ha'
      · exact ih false c hc hws

theorem collapseGo_chain (l : List Char) :
    ∀ b, List.Chain' noWsPair (collapseGo b l) := by
  induction l with
  | nil => intro b; exact List.chain'_nil
  | cons a t ih =>
    intro b
    by_cases ha : pyWs a = true
    · cases b with
      | true =>
        rw [show collapseGo true (a :: t) = collapseGo true t by simp [collapseGo, ha]]
        exact ih true
      | false =>
        rw [show collapseGo false (a :: t) = ' ' :: collapseGo true t by
          simp [collapseGo, ha]]
        rw [List.chain'_cons']
        refine ⟨?_, ih true⟩
        intro y hy
        have := collapseGo_head_true t y (by simpa using hy)
        intro hcon
        rw [this] at hcon
        exact absurd hcon.2 (by simp)
    · have ha' : pyWs a = false := by
        revert ha
        cases pyWs a <;> simp
      rw [show collapseGo b (a :: t) = a :: collapseGo false t by
        cases b <;> simp [collapseGo, ha']]
      rw [List.chain'_cons']
      refine ⟨?_, ih false⟩
      intro y hy hcon
      rw [ha'] at hcon
      exact absurd hcon.1 (by simp)

theorem collapsedL_collapseL (l : List Char) : CollapsedL (collapseL l) :=
  ⟨collapseGo_chain l false, collapseGo_mem l false⟩

theorem collapseL_eq_self_of_collapsed {l : List Char} (h : CollapsedL l) :
    collapseL l = l := by
  obtain ⟨hch, hmem⟩ := h
  induction l with
  | nil => rfl
  | cons a t ih =>
    rw [List.chain'_cons'] at hch
    obtain ⟨hhead, hch'⟩ := hch
    have iht : collapseGo false t = t :=
      ih hch' (fun c hc => hmem c (List.mem_cons_of_mem a hc))
    by_cases ha : pyWs a = true
    · have haeq : a = ' ' := hmem a (List.mem_cons_self a t) ha
      show collapseGo false (a :: t) = a :: t
      rw [show collapseGo false (a :: t) = ' ' :: collapseGo true t by
        simp [collapseGo, ha]]
      rw [← haeq]
      congr 1
      cases t with
      | nil => rfl
      | cons d t' =>
        have hd : pyWs d = false := by
          have hR := hhead d rfl
          unfold noWsPair at hR
          revert hR
          rw [ha]
          cases pyWs d <;> simp
        rw [show collapseGo true (d :: t') = d :: collapseGo false t' by
          simp [collapseGo, hd]]
        rw [show collapseGo false (d :: t') = d :: collapseGo false t' by
          simp [collapseGo, hd]] at iht
        exact iht
    · have ha' : pyWs a = false := by
        revert ha
        cases pyWs a <;> simp
      show collapseGo false (a :: t) = a :: t
      rw [show collapseGo false (a :: t) = a :: collapseGo false t by
        simp [collapseGo, ha']]
      rw [iht]

theorem collapsedL_within {l m : List Char} (h : CollapsedL l) (hm : m <:+: l) :
    CollapsedL m := by
  constructor
  · exact List.Chain'.infix h.1 hm
  · exact fun c hc => h.2 c (hm.sublist.subset hc)

/-! ### C8: properties of the en-dash replacement -/

theorem replaceEnDash_head (l : List Char) :
    (replaceEnDash l).head? = l.head? ∨ (replaceEnDash l).head? = some '-' := by
  match l with
  | [] => exact Or.inl rfl
  | [c] => exact Or.inl rfl
  | [c, d] => exact Or.inl rfl
  | c :: d :: e :: t =>
    by_cases h : c = 'â' ∧ d = '€' ∧ e = '“'
    · right
      rw [show replaceEnDash (c :: d :: e :: t) = '-' :: replaceEnDash t by
        simp [replaceEnDash, h]]
      rfl
    · left
      rw [show replaceEnDash (c :: d :: e :: t) = c :: replaceEnDash (d :: e :: t) by
        simp [replaceEnDash, h]]
      rfl

theorem replaceEnDash_mem {l : List Char} {c : Char} (hc : c ∈ replaceEnDash l) :
    c ∈ l ∨ c = '-' := by
  match l with
  | [] => cases hc
  | [a] =>
    rcases List.mem_cons.mp hc with rfl | h
    · exact Or.inl (List.mem_cons_self _ _)
    · cases h
  | [a, b] =>
    rcases List.mem_cons.mp hc with rfl | h
    · exact Or.inl (List.mem_cons_self _ _)
    · rcases List.mem_cons.mp h with rfl | h2
      · exact Or.inl (by simp)
      · cases h2
  | a :: b :: e :: t =>
    by_cases h : a = 'â' ∧ b = '€' ∧ e = '“'
    · rw [show replaceEnDash (a :: b :: e :: t) = '-' :: replaceEnDash t by
        simp [replaceEnDash, h]] at hc
      rcases List.mem_cons.mp hc with rfl | hc2
      · exact Or.inr rfl
      · rcases replaceEnDash_mem hc2 with hmem | rfl
        · exact Or.inl (by simp [hmem])
        · exact Or.inr rfl
    · rw [show replaceEnDash (a :: b :: e :: t) = a :: replaceEnDash (b :: e :: t) by
        simp [replaceEnDash, h]] at hc
      rcases List.mem_cons.mp hc with rfl | hc2
      · exact Or.inl (List.mem_cons_self _ _)
      · rcases replaceEnDash_mem hc2 with hmem | rfl
        · exact Or.inl (List.mem_cons_of_mem a hmem)
        · exact Or.inr rfl

theorem replaceEnDash_chain {l : List Char} (h : List.Chain' noWsPair l) :
    List.Chain' noWsPair (replaceEnDash l) := by
  match l with
  | [] => exact List.chain'_nil
  | [c] => exact h
  | [c, d] => exact h
  | c :: d :: e :: t =>
    by_cases hp : c = 'â' ∧ d = '€' ∧ e = '“'
    · rw [show replaceEnDash (c :: d :: e :: t) = '-' :: replaceEnDash t by
        simp [replaceEnDash, hp]]
      rw [List.chain'_cons']
      constructor
      · intro y hy hcon
        exact absurd hcon.1 (by simp [pyWs])
      · exact replaceEnDash_chain (h.tail.tail.tail)
    · rw [show replaceEnDash (c :: d :: e :: t) = c :: replaceEnDash (d :: e :: t) by
        simp [replaceEnDash, hp]]
      rw [List.chain'_cons']
      constructor
      · intro y hy
        rcases replaceEnDash_head (d :: e :: t) with hh | hh
        · rw [hh] at hy
          cases hy
          have hR := (List.chain'_cons'.mp h).1 d rfl
          exact hR
        · rw [hh] at hy
          cases hy
          intro hcon
          exact absurd hcon.2 (by simp [pyWs])
      · exact replaceEnDash_chain h.tail

theorem collapsedL_replaceEnDash {l : List Char} (h : CollapsedL l) :
    CollapsedL (replaceEnDash l) := by
  refine ⟨replaceEnDash_chain h.1, ?_⟩
  intro c hc hws
  rcases replaceEnDash_mem hc with hmem | rfl
  · exact h.2 c hmem hws
  · cases hws

/-! ### C8: the replacement output never contains the bad triple -/

theorem prefix2_replaceEnDash {t : List Char}
    (h : ['€', '“'] <+: replaceEnDash t) : ['€', '“'] <+: t := by
  match t with
  | [] =>
    have := h.length_le
    simp [replaceEnDash] at this
  | [c] =>
    have := h.length_le
    simp [replaceEnDash] at this
  | [c, d] => exact h
  | c :: d :: e :: t' =>
    by_cases hp : c = 'â' ∧ d = '€' ∧ e = '“'
    · rw [show replaceEnDash (c :: d :: e :: t') = '-' :: replaceEnDash t' by
        simp [replaceEnDash, hp]] at h
      have := (List.cons_prefix_cons.mp h).1
      cases this
    · rw [show replaceEnDash (c :: d :: e :: t') = c :: replaceEnDash (d :: e :: t') by
        simp [replaceEnDash, hp]] at h
      obtain ⟨hc, h2⟩ := List.cons_prefix_cons.mp h
      obtain ⟨s, hs⟩ := h2
      have hd : d = '“' := by
        rcases replaceEnDash_head (d :: e :: t') with hh | hh
        · rw [← hs] at hh
          cases hh
          rfl
        · rw [← hs] at hh
          cases hh
      exact ⟨e :: t', by simp [← hc, hd]⟩

theorem noBad_replaceEnDash (l : List Char) : ¬ enDashBad <:+: replaceEnDash l := by
  match l with
  | [] =>
    intro h
    have := h.length_le
    simp [enDashBad, replaceEnDash] at this
  | [c] =>
    intro h
    have := h.length_le
    simp [enDashBad, replaceEnDash] at this
  | [c, d] =>
    intro h
    have := h.length_le
    simp [enDashBad, replaceEnDash] at this
  | c :: d :: e :: t =>
    by_cases hp : c = 'â' ∧ d = '€' ∧ e = '“'
    · rw [show replaceEnDash (c :: d :: e :: t) = '-' :: replaceEnDash t by
        simp [replaceEnDash, hp]]
      intro h
      rcases List.infix_cons_iff.mp h with hpre | hinf
      · have := (List.cons_prefix_cons.mp hpre).1
        cases this
      · exact noBad_replaceEnDash t hinf
    · rw [show replaceEnDash (c :: d :: e :: t) = c :: replaceEnDash (d :: e :: t) by
        simp [replaceEnDash, hp]]
      intro h
      rcases List.infix_cons_iff.mp h with hpre | hinf
      · obtain ⟨hc, h2⟩ := List.cons_prefix_cons.mp hpre
        have h3 := prefix2_replaceEnDash h2
        obtain ⟨hd, h4⟩ := List.cons_prefix_cons.mp h3
        obtain ⟨he, h5⟩ := List.cons_prefix_cons.mp h4
        exact hp ⟨hc.symm, hd.symm, he.symm⟩
      · exact noBad_replaceEnDash (d :: e :: t) hinf

theorem notInfix_mono {pat l m : List Char} (h : ¬ pat <:+: l) (hm : m <:+: l) :
    ¬ pat <:+: m := fun hp => h (hp.trans hm)

theorem replaceEnDash_eq_self {l : List Char} (h : ¬ enDashBad <:+: l) :
    replaceEnDash l = l := by
  match l with
  | [] => rfl
  | [c] => rfl
  | [c, d] => rfl
  | c :: d :: e :: t =>
    by_cases hp : c = 'â' ∧ d = '€' ∧ e = '“'
    · exfalso
      apply h
      obtain ⟨h1, h2, h3⟩ := hp
      exact (show enDashBad <+: c :: d :: e :: t from
        ⟨t, by simp [enDashBad, h1, h2, h3]⟩).isInfix
    · rw [show replaceEnDash (c :: d :: e :: t) = c :: replaceEnDash (d :: e :: t) by
        simp [replaceEnDash, hp]]
      have ht : ¬ enDashBad <:+: (d :: e :: t) := by
        intro hbad
        have h2 : enDashBad <:+: c :: d :: e :: t := List.infix_cons_iff.mpr (Or.inr hbad)
        exact h h2
      rw [replaceEnDash_eq_self ht]

/-! ### C8: the suffix-stripping loop -/

theorem corpFindAux_lt {b : Bool} {l : List Char} {i : Nat}
    (h : corpFindAux b l = some i) : i < l.length := by
  induction l generalizing b i with
  | nil => cases h
  | cons c t ih =>
    unfold corpFindAux at h
    by_cases hc : (!b && altComplete (c :: t)) = true
    · rw [if_pos hc] at h
      cases h
      simp
    · rw [if_neg hc] at h
      cases hf : corpFindAux (isWordChar c) t with
      | none => rw [hf] at h; cases h
      | some j =>
        rw [hf] at h
        cases h
        have := ih hf
        simpa using Nat.succ_lt_succ this

theorem corpSubL_pre (l : List Char) : corpSubL l <+: l := by
  cases hf : corpFindAux false l with
  | none => simp [corpSubL, hf]
  | some i =>
    simp only [corpSubL, hf]
    exact List.take_prefix i l

theorem stripL_sublist (l : List Char) : List.Sublist (stripL l) l :=
  List.Sublist.trans
    (List.IsPrefix.sublist (List.rdropWhile_prefix pyWs (l.dropWhile pyWs)))
    (List.dropWhile_suffix pyWs).sublist

theorem stripL_within (l : List Char) : stripL l <:+: l :=
  List.IsInfix.trans
    (List.IsPrefix.isInfix (List.rdropWhile_prefix pyWs (l.dropWhile pyWs)))
    (List.dropWhile_suffix pyWs).isInfix

theorem stripL_length_le (l : List Char) : (stripL l).length ≤ l.length :=
  (stripL_sublist l).length_le

theorem corpStep_length_lt {l : List Char} (h : stripL (corpSubL l) ≠ l) :
    (stripL (corpSubL l)).length < l.length := by
  cases hf : corpFindAux false l with
  | some i =>
    have hi := corpFindAux_lt hf
    have hc : corpSubL l = l.take i := by simp [corpSubL, hf]
    have h1 : (stripL (corpSubL l)).length ≤ (l.take i).length := by
      rw [← hc]
      exact stripL_length_le _
    have h2 : (l.take i).length ≤ i := by
      simp [List.length_take]
    omega
  | none =>
    have hc : corpSubL l = l := by simp [corpSubL, hf]
    rw [hc] at h ⊢
    have hle := (stripL_sublist l).length_le
    rcases lt_or_eq_of_le hle with hlt | heq
    · exact hlt
    · exact absurd ((stripL_sublist l).eq_of_length heq) h

theorem corpFixFuel_spec : ∀ (n : Nat) (l : List Char), l.length < n →
    stripL (corpSubL (corpFixFuel n l)) = corpFixFuel n l := by
  intro n
  induction n with
  | zero => exact fun l h => absurd h (Nat.not_lt_zero _)
  | succ n ih =>
    intro l hl
    by_cases ht : stripL (corpSubL l) = l
    · rw [show corpFixFuel (n + 1) l = l by simp [corpFixFuel, ht]]
      exact ht
    · rw [show corpFixFuel (n + 1) l = corpFixFuel n (stripL (corpSubL l)) by
        simp [corpFixFuel, ht]]
      exact ih _ (lt_of_lt_of_le (corpStep_length_lt ht) (Nat.lt_succ_iff.mp hl))

theorem corpFixFuel_within : ∀ (n : Nat) (l : List Char), corpFixFuel n l <:+: l := by
  intro n
  induction n with
  | zero => exact fun l => List.infix_refl _
  | succ n ih =>
    intro l
    by_cases ht : stripL (corpSubL l) = l
    · simp [corpFixFuel, ht]
    · rw [show corpFixFuel (n + 1) l = corpFixFuel n (stripL (corpSubL l)) by
        simp [corpFixFuel, ht]]
      exact (ih _).trans ((stripL_within _).trans (List.IsPrefix.isInfix (corpSubL_pre _)))

theorem corpFix_spec (l : List Char) :
    stripL (corpSubL (corpFix l)) = corpFix l :=
  corpFixFuel_spec (l.length + 1) l (Nat.lt_succ_self _)

theorem corpFix_within (l : List Char) : corpFix l <:+: l := corpFixFuel_within _ l

theorem corpFix_corpSubL (l : List Char) : corpSubL (corpFix l) = corpFix l := by
  cases hf : corpFindAux false (corpFix l) with
  | none => simp [corpSubL, hf]
  | some i =>
    exfalso
    have hi := corpFindAux_lt hf
    have hspec := corpFix_spec l
    have hsub : corpSubL (corpFix l) = (corpFix l).take i := by simp [corpSubL, hf]
    have hlen : (stripL (corpSubL (corpFix l))).length ≤ i := by
      rw [hsub]
      have h1 := stripL_length_le ((corpFix l).take i)
      have h2 : ((corpFix l).take i).length ≤ i := by simp [List.length_take]
      omega
    rw [hspec] at hlen
    omega

theorem corpFix_stripL (l : List Char) : stripL (corpFix l) = corpFix l := by
  have h := corpFix_spec l
  rw [corpFix_corpSubL l] at h
  exact h

theorem corpFix_eq_self {l : List Char} (h : stripL (corpSubL l) = l) : corpFix l = l := by
  show corpFixFuel (l.length + 1) l = l
  simp [corpFixFuel, h]

/-! ### C8: idempotence on whitespace-collapsed inputs -/

theorem noDash_seg (l : List Char) : ∀ c ∈ l.takeWhile (fun c => c ≠ '-'), c ≠ '-' := by
  intro c hc
  have := List.mem_takeWhile_imp hc
  simpa using this

/-- A list that is simultaneously a fixed point of the en-dash replacement
(no bad triple), the hyphen split (no hyphen), `strip`, the suffix loop and
whitespace collapse is a fixed point of the whole cleaner. -/
theorem clean_of_fixedpoint {p : List Char}
    (hColl : CollapsedL p) (hBad : ¬ enDashBad <:+: p)
    (hDash : ∀ c ∈ p, c ≠ '-') (hSub : corpSubL p = p) (hStrip : stripL p = p) :
    clean_stock_name (String.mk p) = String.mk p := by
  by_cases hn : p = []
  · rw [hn]
    rfl
  · have hne : String.mk p ≠ "" := by
      intro h
      apply hn
      have hd : (String.mk p).data = ("" : String).data := by rw [h]
      simpa using hd
    unfold clean_stock_name
    rw [if_neg hne]
    show String.mk (collapseL (corpFix (stripL
      ((replaceEnDash p).takeWhile (fun c => c ≠ '-'))))) = String.mk p
    rw [replaceEnDash_eq_self hBad]
    rw [List.takeWhile_eq_self_iff.mpr (by intro c hc; simpa using hDash c hc)]
    rw [hStrip]
    rw [corpFix_eq_self (by rw [hSub, hStrip])]
    rw [collapseL_eq_self_of_collapsed hColl]

/-- **C8** (amended): `clean_stock_name` is idempotent on every input that is
already a fixed point of whitespace collapsing (no two adjacent whitespace
characters, all whitespace plain spaces) — in particular on all real site
data.  On general inputs the first pass may merge a whitespace run and
thereby expose a corporate suffix that the second pass strips, so full
idempotence fails (see the counterexample). -/
theorem c8_clean_idempotent_on_collapsed (s : String)
    (hs : collapseL s.data = s.data) :
    clean_stock_name (clean_stock_name s) = clean_stock_name s := by
  by_cases hne : s = ""
  · rw [hne]
    rfl
  · have hcoll : CollapsedL s.data := by
      have h := collapsedL_collapseL s.data
      rwa [hs] at h
    have hp_inf : corpFix (stripL ((replaceEnDash s.data).takeWhile (fun c => c ≠ '-')))
        <:+: replaceEnDash s.data :=
      (corpFix_within _).trans ((stripL_within _).trans
        (List.IsPrefix.isInfix (List.takeWhile_prefix _)))
    have hclean : clean_stock_name s = String.mk (corpFix (stripL
        ((replaceEnDash s.data).takeWhile (fun c => c ≠ '-')))) := by
      unfold clean_stock_name
      rw [if_neg hne]
      show String.mk (collapseL (corpFix (stripL
        ((replaceEnDash s.data).takeWhile (fun c => c ≠ '-'))))) = _
      congr 1
      exact collapseL_eq_self_of_collapsed
        (collapsedL_within (collapsedL_replaceEnDash hcoll) hp_inf)
    rw [hclean]
    apply clean_of_fixedpoint
    · exact collapsedL_within (collapsedL_replaceEnDash hcoll) hp_inf
    · exact notInfix_mono (noBad_replaceEnDash s.data) hp_inf
    · intro c hc
      exact noDash_seg (replaceEnDash s.data) c
        (((corpFix_within _).trans (stripL_within _)).sublist.subset hc)
    · exact corpFix_corpSubL _
    · exact corpFix_stripL _

/-- **C8** counterexample: on `"Foo Common  Stock"` (double space) the first
pass only collapses the whitespace, exposing the `Common Stock` suffix that
the second pass strips: `clean` gives `"Foo Common Stock"`, `clean ∘ clean`
gives `"Foo"`, so the cleaner is not idempotent on all inputs. -/
theorem c8_counterexample :
    clean_stock_name (clean_stock_name "Foo Common  Stock") ≠
      clean_stock_name "Foo Common  Stock" := by decide

/-- **C8** witness. -/
theorem c8_witness :
    collapseL ("Apple Inc Common Stock" : String).data =
      ("Apple Inc Common Stock" : String).data ∧
    clean_stock_name (clean_stock_name "Apple Inc Common Stock") =
      clean_stock_name "Apple Inc Common Stock" :=
  ⟨by decide, c8_clean_idempotent_on_collapsed "Apple Inc Common Stock" (by decide)⟩
